import Mathlib

/-!
Verification of the albucore image-arithmetic core (src/albucore/functions.py,
src/albucore/utils.py) against its natural-language specification.

Modelling conventions.
Buffers are lists of pixels, each pixel a list of per-channel rational values,
together with a dtype tag and a numpy-style shape (the last shape entry is the
channel count, as in get_num_channels).  Machine floating point is modelled
two ways, each used where it is faithful:
- where a claim compares two code paths that invoke the same numpy float32
  ufunc on the same arguments, the ufunc is an abstract parameter
  (a FloatOps record), so the theorems hold for the actual float32 semantics
  whatever it is;
- where a claim depends on the actual rounding (to_float / from_float), float
  rounding is modelled exactly: roundFl p q rounds the rational q to the
  nearest (ties to even) dyadic rational with a (p+1)-bit significand, which
  is IEEE binary32 for p = 23 and binary64 for p = 52 on the value ranges
  used here (no overflow, no subnormals).
numpy astype to an integer dtype truncates toward zero (truncQ); np.rint is
round-half-to-even (rintQ); np.clip is clampQ.
-/

namespace Albucore

/-- Element types recognized by MAX_VALUES_BY_DTYPE in utils.py. -/
inductive Dtype where
  | uint8
  | uint16
  | uint32
  | int32
  | float16
  | float32
  | float64
deriving DecidableEq

/-- MAX_VALUES_BY_DTYPE from utils.py. -/
def MAX_VALUES_BY_DTYPE (d : Dtype) : ℚ :=
  match d with
  | .uint8 => 255
  | .uint16 => 65535
  | .uint32 => 4294967295
  | .int32 => 2147483647
  | .float16 => 1
  | .float32 => 1
  | .float64 => 1

/-- The integer max value of an integer dtype, as a natural number. -/
def maxNat (d : Dtype) : ℕ :=
  match d with
  | .uint8 => 255
  | .uint16 => 65535
  | .uint32 => 4294967295
  | .int32 => 2147483647
  | .float16 => 1
  | .float32 => 1
  | .float64 => 1

/-- Whether the dtype is a floating-point dtype. -/
def isFloat (d : Dtype) : Bool :=
  match d with
  | .float16 | .float32 | .float64 => true
  | _ => false

/-- Significand precision (mantissa bits after the leading 1) of a float dtype. -/
def precOf (d : Dtype) : ℕ :=
  match d with
  | .float16 => 10
  | .float64 => 52
  | _ => 23

/-- MAX_OPENCV_WORKING_CHANNELS from utils.py. -/
def MAX_OPENCV_WORKING_CHANNELS : ℕ := 4

/-- Truncation toward zero: the semantics of numpy astype to an integer type. -/
def truncQ (q : ℚ) : ℤ :=
  if q < 0 then -⌊-q⌋ else ⌊q⌋

/-- Round half to even: the semantics of np.rint and of IEEE rounding of an
exact value to the nearest representable one. -/
def rintQ (q : ℚ) : ℤ :=
  if q - ⌊q⌋ < 1/2 then ⌊q⌋
  else if 1/2 < q - ⌊q⌋ then ⌊q⌋ + 1
  else if ⌊q⌋ % 2 = 0 then ⌊q⌋ else ⌊q⌋ + 1

/-- The binary exponent of a positive rational: the unique l with
2 ^ l ≤ q < 2 ^ (l + 1).  Computed from Nat.log2 of the floor of q
(respectively of its inverse when q < 1). -/
def Elog (q : ℚ) : ℤ :=
  if 1 ≤ q then (Nat.log2 ⌊q⌋.toNat : ℤ)
  else if (2:ℚ) ^ (-(Nat.log2 ⌊q⁻¹⌋.toNat : ℤ)) ≤ q then -(Nat.log2 ⌊q⁻¹⌋.toNat : ℤ)
  else -(Nat.log2 ⌊q⁻¹⌋.toNat : ℤ) - 1

/-- Round a nonnegative rational to the nearest (ties to even) float with a
(p+1)-bit significand.  Nonpositive inputs round to 0 (all values this
development rounds are nonnegative). -/
def roundFl (p : ℕ) (q : ℚ) : ℚ :=
  if q ≤ 0 then 0
  else (rintQ (q * 2 ^ ((p:ℤ) - Elog q)) : ℚ) * 2 ^ (Elog q - (p:ℤ))

/-- np.clip with explicit bounds. -/
def clampQ (lo hi q : ℚ) : ℚ := max lo (min hi q)

/- ----------------------------------------------------------------
Basic lemmas about the rounding model.
---------------------------------------------------------------- -/

theorem truncQ_intCast (n : ℤ) : truncQ (n : ℚ) = n := by
  unfold truncQ
  rcases lt_or_le (n:ℚ) 0 with h | h
  · rw [if_pos h]
    rw [← Rat.cast_intCast (α := ℚ)] at *
    push_cast
    rw [← Int.cast_neg, Int.floor_intCast]
    ring
  · rw [if_neg (not_lt.mpr h), Int.floor_intCast]

theorem rintQ_abs_le (q : ℚ) : |(rintQ q : ℚ) - q| ≤ 1/2 := by
  unfold rintQ
  have hfl : (⌊q⌋ : ℚ) ≤ q := Int.floor_le q
  have hfu : q < ⌊q⌋ + 1 := Int.lt_floor_add_one q
  split_ifs with h1 h2 h3
  · rw [abs_sub_comm, abs_of_nonneg (by linarith)]; linarith
  · push_cast; rw [abs_of_nonneg (by push_cast at *; linarith)]
    push_cast at *; linarith
  · rw [abs_sub_comm, abs_of_nonneg (by linarith)]; linarith
  · push_cast; rw [abs_of_nonneg (by push_cast at *; linarith)]
    push_cast at *; linarith

theorem rintQ_eq_of_near (q : ℚ) (n : ℤ) (h : |q - (n:ℚ)| < 1/2) : rintQ q = n := by
  rw [abs_lt] at h
  unfold rintQ
  rcases le_or_lt (n:ℚ) q with hq | hq
  · have hfl : ⌊q⌋ = n := by
      rw [Int.floor_eq_iff]; constructor
      · exact hq
      · push_cast; linarith
    rw [hfl]
    have : q - (n:ℚ) < 1/2 := by linarith
    rw [if_pos this]
  · have hfl : ⌊q⌋ = n - 1 := by
      rw [Int.floor_eq_iff]; constructor
      · push_cast; linarith
      · push_cast; linarith
    rw [hfl]
    have hgt : ¬ (q - ((n - 1 : ℤ):ℚ) < 1/2) := by push_cast; push_neg; linarith
    rw [if_neg hgt]
    have : (1:ℚ)/2 < q - ((n - 1 : ℤ):ℚ) := by push_cast; linarith
    rw [if_pos this]
    omega

theorem rintQ_intCast (n : ℤ) : rintQ (n : ℚ) = n := by
  apply rintQ_eq_of_near
  simp

theorem rintQ_nonneg (q : ℚ) (h : 0 ≤ q) : 0 ≤ rintQ q := by
  have h2 := rintQ_abs_le q
  rw [abs_le] at h2
  have : (-1:ℚ)/2 ≤ (rintQ q : ℚ) := by linarith [h2.1]
  by_contra hneg
  push_neg at hneg
  have : rintQ q ≤ -1 := by omega
  have : ((rintQ q : ℤ) : ℚ) ≤ -1 := by exact_mod_cast this
  linarith

theorem rintQ_le_of_le_int (q : ℚ) (n : ℤ) (h : q ≤ n) : rintQ q ≤ n := by
  have h2 := rintQ_abs_le q
  rw [abs_le] at h2
  have : (rintQ q : ℚ) ≤ n + 1/2 := by linarith [h2.1]
  by_contra hgt
  push_neg at hgt
  have : n + 1 ≤ rintQ q := by omega
  have : ((n:ℚ) + 1) ≤ (rintQ q : ℚ) := by exact_mod_cast this
  linarith

/-- 2 ^ log2 n ≤ n over ℚ. -/
theorem pow_log2_le_self (n : ℕ) (hn : n ≠ 0) : (2:ℚ) ^ ((Nat.log2 n : ℕ) : ℤ) ≤ (n:ℚ) := by
  rw [zpow_natCast]
  exact_mod_cast Nat.log2_self_le hn

/-- n < 2 ^ (log2 n + 1) over ℚ. -/
theorem lt_pow_log2_succ (n : ℕ) : (n:ℚ) < (2:ℚ) ^ (((Nat.log2 n : ℕ) : ℤ) + 1) := by
  rw [show ((Nat.log2 n : ℕ) : ℤ) + 1 = ((Nat.log2 n + 1 : ℕ) : ℤ) by push_cast; ring,
    zpow_natCast]
  exact_mod_cast Nat.lt_log2_self

theorem Elog_spec (q : ℚ) (h : 0 < q) :
    (2:ℚ) ^ (Elog q) ≤ q ∧ q < (2:ℚ) ^ (Elog q + 1) := by
  unfold Elog
  rcases le_or_lt 1 q with h1 | h1
  · rw [if_pos h1]
    have hfl1 : (1:ℤ) ≤ ⌊q⌋ := by
      rw [Int.le_floor]; exact_mod_cast h1
    have hnz : ⌊q⌋.toNat ≠ 0 := by omega
    have hcast : ((⌊q⌋.toNat : ℕ) : ℚ) = ((⌊q⌋ : ℤ) : ℚ) := by
      have ht : ((⌊q⌋.toNat : ℕ) : ℤ) = ⌊q⌋ := Int.toNat_of_nonneg (by omega)
      exact_mod_cast ht
    constructor
    · calc (2:ℚ) ^ ((Nat.log2 ⌊q⌋.toNat : ℕ) : ℤ) ≤ (⌊q⌋.toNat : ℚ) :=
            pow_log2_le_self _ hnz
        _ = ((⌊q⌋ : ℤ) : ℚ) := hcast
        _ ≤ q := Int.floor_le q
    · have h2 : ((⌊q⌋.toNat : ℕ) : ℚ) < (2:ℚ) ^ (((Nat.log2 ⌊q⌋.toNat : ℕ) : ℤ) + 1) :=
        lt_pow_log2_succ _
      have h3 : q < ((⌊q⌋ : ℤ) : ℚ) + 1 := Int.lt_floor_add_one q
      have h4 : (2:ℚ) ^ (((Nat.log2 ⌊q⌋.toNat : ℕ) : ℤ) + 1) ≥ ((⌊q⌋ : ℤ) : ℚ) + 1 := by
        rw [← hcast]
        have h5 : (⌊q⌋.toNat : ℤ) + 1 ≤ (2:ℤ) ^ (Nat.log2 ⌊q⌋.toNat + 1) := by
          exact_mod_cast Nat.lt_log2_self (n := ⌊q⌋.toNat)
        have h6 : ((⌊q⌋.toNat : ℤ) : ℚ) + 1 ≤ ((2:ℤ) ^ (Nat.log2 ⌊q⌋.toNat + 1) : ℚ) := by
          exact_mod_cast h5
        rw [show (((Nat.log2 ⌊q⌋.toNat : ℕ) : ℤ) + 1) = ((Nat.log2 ⌊q⌋.toNat + 1 : ℕ) : ℤ) by
          push_cast; ring, zpow_natCast]
        push_cast at h6 ⊢
        linarith
      linarith
  · rw [if_neg (not_le.mpr h1)]
    have hrpos : 1 < q⁻¹ := one_lt_inv_iff₀.mpr ⟨h, h1⟩
    have hfl1 : (1:ℤ) ≤ ⌊q⁻¹⌋ := by
      rw [Int.le_floor]; push_cast; linarith
    have hnz : ⌊q⁻¹⌋.toNat ≠ 0 := by omega
    have hcast : ((⌊q⁻¹⌋.toNat : ℕ) : ℚ) = ((⌊q⁻¹⌋ : ℤ) : ℚ) := by
      have ht : ((⌊q⁻¹⌋.toNat : ℕ) : ℤ) = ⌊q⁻¹⌋ := Int.toNat_of_nonneg (by omega)
      exact_mod_cast ht
    have hlow : (2:ℚ) ^ ((Nat.log2 ⌊q⁻¹⌋.toNat : ℕ) : ℤ) ≤ q⁻¹ := by
      calc (2:ℚ) ^ ((Nat.log2 ⌊q⁻¹⌋.toNat : ℕ) : ℤ) ≤ (⌊q⁻¹⌋.toNat : ℚ) :=
            pow_log2_le_self _ hnz
        _ = ((⌊q⁻¹⌋ : ℤ) : ℚ) := hcast
        _ ≤ q⁻¹ := Int.floor_le _
    have hhigh : q⁻¹ < (2:ℚ) ^ (((Nat.log2 ⌊q⁻¹⌋.toNat : ℕ) : ℤ) + 1) := by
      have h2 : ((⌊q⁻¹⌋.toNat : ℕ) : ℚ) < (2:ℚ) ^ (((Nat.log2 ⌊q⁻¹⌋.toNat : ℕ) : ℤ) + 1) :=
        lt_pow_log2_succ _
      have h3 : q⁻¹ < ((⌊q⁻¹⌋ : ℤ) : ℚ) + 1 := Int.lt_floor_add_one _
      have h4 : (2:ℚ) ^ (((Nat.log2 ⌊q⁻¹⌋.toNat : ℕ) : ℤ) + 1) ≥ ((⌊q⁻¹⌋ : ℤ) : ℚ) + 1 := by
        rw [← hcast]
        have h5 : (⌊q⁻¹⌋.toNat : ℤ) + 1 ≤ (2:ℤ) ^ (Nat.log2 ⌊q⁻¹⌋.toNat + 1) := by
          exact_mod_cast Nat.lt_log2_self (n := ⌊q⁻¹⌋.toNat)
        have h6 : ((⌊q⁻¹⌋.toNat : ℤ) : ℚ) + 1 ≤ ((2:ℤ) ^ (Nat.log2 ⌊q⁻¹⌋.toNat + 1) : ℚ) := by
          exact_mod_cast h5
        rw [show (((Nat.log2 ⌊q⁻¹⌋.toNat : ℕ) : ℤ) + 1) = ((Nat.log2 ⌊q⁻¹⌋.toNat + 1 : ℕ) : ℤ) by
          push_cast; ring, zpow_natCast]
        push_cast at h6 ⊢
        linarith
      linarith
    set l : ℤ := ((Nat.log2 ⌊q⁻¹⌋.toNat : ℕ) : ℤ) with hldef
    have hq_le : q ≤ (2:ℚ) ^ (-l) := by
      rw [zpow_neg]
      rw [le_inv_comm₀ h (by positivity)]
      exact hlow
    have hq_gt : (2:ℚ) ^ (-l - 1) < q := by
      rw [show -l - 1 = -(l + 1) by ring, zpow_neg]
      rw [inv_lt_comm₀ (by positivity) h]
      exact hhigh
    split_ifs with h2
    · exact ⟨h2, lt_of_le_of_lt hq_le (zpow_lt_zpow_right₀ (by norm_num) (by omega))⟩
    · exact ⟨le_of_lt hq_gt, by rw [show -l - 1 + 1 = -l by ring]; exact lt_of_not_le h2⟩

theorem roundFl_nonpos (p : ℕ) (q : ℚ) (h : q ≤ 0) : roundFl p q = 0 := by
  unfold roundFl
  rw [if_pos h]

theorem roundFl_zero (p : ℕ) : roundFl p 0 = 0 := roundFl_nonpos p 0 le_rfl

/-- Relative error bound of rounding: one half ulp, i.e. q / 2 ^ (p+1). -/
theorem roundFl_err (p : ℕ) (q : ℚ) (h : 0 < q) :
    |roundFl p q - q| ≤ q / 2 ^ (p + 1) := by
  unfold roundFl
  rw [if_neg (not_le.mpr h)]
  obtain ⟨hlo, _⟩ := Elog_spec q h
  set l : ℤ := Elog q with hl
  set m : ℚ := q * 2 ^ ((p:ℤ) - l) with hm
  have herr : |(rintQ m : ℚ) - m| ≤ 1/2 := rintQ_abs_le m
  have hfact : (rintQ m : ℚ) * 2 ^ (l - (p:ℤ)) - q
      = ((rintQ m : ℚ) - m) * 2 ^ (l - (p:ℤ)) := by
    have hmm : m * 2 ^ (l - (p:ℤ)) = q := by
      rw [hm, mul_assoc, ← zpow_add₀ (by norm_num : (2:ℚ) ≠ 0)]
      norm_num
    calc (rintQ m : ℚ) * 2 ^ (l - (p:ℤ)) - q
        = (rintQ m : ℚ) * 2 ^ (l - (p:ℤ)) - m * 2 ^ (l - (p:ℤ)) := by rw [hmm]
      _ = ((rintQ m : ℚ) - m) * 2 ^ (l - (p:ℤ)) := by ring
  rw [hfact, abs_mul, abs_of_nonneg (le_of_lt (by positivity : (0:ℚ) < 2 ^ (l - (p:ℤ))))]
  have hstep : |(rintQ m : ℚ) - m| * 2 ^ (l - (p:ℤ)) ≤ (1/2) * 2 ^ (l - (p:ℤ)) := by
    apply mul_le_mul_of_nonneg_right herr
    positivity
  refine le_trans hstep ?_
  have hgoal : (1:ℚ)/2 * 2 ^ (l - (p:ℤ)) = 2 ^ l * 2 ^ (-((p:ℤ)+1)) := by
    rw [show (1:ℚ)/2 = 2 ^ (-1 : ℤ) by norm_num,
      ← zpow_add₀ (by norm_num : (2:ℚ) ≠ 0), ← zpow_add₀ (by norm_num : (2:ℚ) ≠ 0)]
    ring_nf
  have hdiv : q / 2 ^ (p + 1) = q * 2 ^ (-((p:ℤ)+1)) := by
    rw [div_eq_mul_inv]
    congr 1
    rw [zpow_neg, ← zpow_natCast (2:ℚ) (p+1)]
    norm_num
  rw [hgoal, hdiv]
  apply mul_le_mul_of_nonneg_right hlo
  positivity

theorem roundFl_nonneg (p : ℕ) (q : ℚ) : 0 ≤ roundFl p q := by
  unfold roundFl
  split_ifs with h
  · exact le_refl 0
  · push_neg at h
    have hm : (0:ℚ) ≤ q * 2 ^ ((p:ℤ) - Elog q) := by positivity
    have hr := rintQ_nonneg _ hm
    have hc : (0:ℚ) ≤ (rintQ (q * 2 ^ ((p:ℤ) - Elog q)) : ℚ) := by exact_mod_cast hr
    positivity

/-- Rounding does not cross a representable power of two from below. -/
theorem roundFl_le_pow (p : ℕ) (q : ℚ) (k : ℤ) (h : q ≤ (2:ℚ) ^ k) :
    roundFl p q ≤ (2:ℚ) ^ k := by
  unfold roundFl
  split_ifs with h0
  · positivity
  · push_neg at h0
    obtain ⟨hlo, _⟩ := Elog_spec q h0
    set l : ℤ := Elog q with hl
    have hlk : l ≤ k := by
      by_contra hc
      push_neg at hc
      have hck : (2:ℚ) ^ k < (2:ℚ) ^ l := zpow_lt_zpow_right₀ (by norm_num) hc
      linarith
    set m : ℚ := q * 2 ^ ((p:ℤ) - l) with hm
    set d : ℕ := (k + (p:ℤ) - l).toNat with hd
    have hdnn : (k + (p:ℤ) - l) = (d:ℤ) := by omega
    have hmle : m ≤ ((2 ^ d : ℤ) : ℚ) := by
      have h1 : q * 2 ^ ((p:ℤ) - l) ≤ (2:ℚ) ^ k * 2 ^ ((p:ℤ) - l) :=
        mul_le_mul_of_nonneg_right h (by positivity)
      have h2 : (2:ℚ) ^ k * 2 ^ ((p:ℤ) - l) = ((2 ^ d : ℤ) : ℚ) := by
        rw [← zpow_add₀ (by norm_num : (2:ℚ) ≠ 0)]
        rw [show k + ((p:ℤ) - l) = (d:ℤ) by omega]
        push_cast
        rw [zpow_natCast]
      rw [hm]
      linarith [h2 ▸ h1]
    have hr : rintQ m ≤ 2 ^ d := rintQ_le_of_le_int m _ hmle
    have hrq : (rintQ m : ℚ) ≤ (2:ℚ) ^ ((d:ℕ) : ℤ) := by
      rw [zpow_natCast]
      exact_mod_cast hr
    calc (rintQ m : ℚ) * 2 ^ (l - (p:ℤ))
        ≤ (2:ℚ) ^ ((d:ℕ):ℤ) * 2 ^ (l - (p:ℤ)) :=
          mul_le_mul_of_nonneg_right hrq (by positivity)
      _ = (2:ℚ) ^ k := by
          rw [← zpow_add₀ (by norm_num : (2:ℚ) ≠ 0)]
          congr 1
          omega

/-- Rounding is exact on integers below 2 ^ (p+1). -/
theorem roundFl_natCast (p n : ℕ) (h : n < 2 ^ (p + 1)) : roundFl p (n : ℚ) = n := by
  rcases Nat.eq_zero_or_pos n with h0 | h0
  · subst h0
    simpa using roundFl_zero p
  · unfold roundFl
    have hq : (0:ℚ) < (n:ℚ) := by exact_mod_cast h0
    rw [if_neg (not_le.mpr hq)]
    obtain ⟨hlo, hhi⟩ := Elog_spec (n:ℚ) hq
    set l : ℤ := Elog (n:ℚ) with hl
    have hlp : l ≤ p := by
      by_contra hc
      push_neg at hc
      have h2 : (2:ℚ) ^ ((p:ℤ) + 1) ≤ (2:ℚ) ^ l := zpow_le_zpow_right₀ (by norm_num) (by omega)
      have h3 : ((n:ℚ)) < (2:ℚ) ^ ((p:ℤ)+1) := by
        rw [show ((p:ℤ)+1) = ((p+1 : ℕ):ℤ) by push_cast; ring, zpow_natCast]
        exact_mod_cast h
      linarith
    have hlnn : (0:ℤ) ≤ l := by
      by_contra hc
      push_neg at hc
      have h2 : (2:ℚ) ^ (l + 1) ≤ (2:ℚ) ^ (0:ℤ) := zpow_le_zpow_right₀ (by norm_num) (by omega)
      have h3 : (1:ℚ) ≤ (n:ℚ) := by exact_mod_cast h0
      rw [zpow_zero] at h2
      linarith
    set d : ℕ := ((p:ℤ) - l).toNat with hd
    have hdeq : (p:ℤ) - l = (d:ℤ) := by omega
    have hm : (n:ℚ) * 2 ^ ((p:ℤ) - l) = (((n * 2 ^ d : ℕ) : ℤ) : ℚ) := by
      rw [hdeq]
      push_cast
      rw [zpow_natCast]
    rw [hm, rintQ_intCast]
    push_cast
    rw [show (l - (p:ℤ)) = -(d:ℤ) by omega, zpow_neg, zpow_natCast]
    rw [mul_assoc, mul_inv_cancel₀ (by positivity : ((2:ℚ)^d) ≠ 0)]
    ring

/- ----------------------------------------------------------------
Data model: buffers, operand values, elementwise casting, clip.
---------------------------------------------------------------- -/

/-- numpy astype semantics per element: rounding for the float dtypes; for
the integer dtypes the C cast, which truncates toward zero when the value is
representable, while an out-of-range value keeps the low bits of the 64-bit
integer intermediate for the unsigned dtypes (reduction modulo 2 ^ bits) and
produces the 0x80000000 sentinel -2 ^ 31 of the hardware float-to-int
conversion for int32. -/
def castValue (d : Dtype) (q : ℚ) : ℚ :=
  match d with
  | .uint8 => ((truncQ q % 2 ^ 8 : ℤ) : ℚ)
  | .uint16 => ((truncQ q % 2 ^ 16 : ℤ) : ℚ)
  | .uint32 => ((truncQ q % 2 ^ 32 : ℤ) : ℚ)
  | .int32 =>
      if -2 ^ 31 ≤ truncQ q ∧ truncQ q < 2 ^ 31 then ((truncQ q : ℤ) : ℚ)
      else ((-2 ^ 31 : ℤ) : ℚ)
  | .float16 => roundFl 10 q
  | .float32 => roundFl 23 q
  | .float64 => roundFl 52 q

/-- The upper bound np.clip effectively compares against: numpy converts the
python scalar MAX_VALUES_BY_DTYPE[target] into the dtype of the clipped
array, so a float source rounds the bound (float32 turns the int32 bound
2147483647 into 2 ^ 31 and the uint32 bound 4294967295 into 2 ^ 32), while
against an integer source the scalar participates at its exact value. -/
def clipBound (src target : Dtype) : ℚ :=
  if isFloat src then roundFl (precOf src) (MAX_VALUES_BY_DTYPE target)
  else MAX_VALUES_BY_DTYPE target

/-- One element of clip from utils.py applied to an array of dtype src:
np.clip(x, 0, max_value), with the bound as the source dtype represents it,
followed by astype(target). -/
def clipScalar (src target : Dtype) (q : ℚ) : ℚ :=
  castValue target (clampQ 0 (clipBound src target) q)

/-- An image-shaped buffer: a dtype tag, the numpy shape (the last entry is
the channel count), and the list of pixels, each pixel being its list of
channel values.  The well-formedness facts (every pixel has shape.getLast
channels, the pixel count is the product of the other dimensions) are
hypotheses of the theorems that need them. -/
structure Buffer where
  dtype : Dtype
  shape : List ℕ
  pix : List (List ℚ)
deriving DecidableEq

/-- get_num_channels from utils.py: the size of the last axis. -/
def get_num_channels (b : Buffer) : ℕ := b.shape.getLastD 0

/-- clip from utils.py.  The bound is the one the input buffer dtype sees;
the inplace flag only controls aliasing of the numpy result and never its
value, so it is dropped in the model. -/
def clip (b : Buffer) (d : Dtype) : Buffer :=
  ⟨d, b.shape, b.pix.map (List.map (clipScalar b.dtype d))⟩

/-- An operand as classified by convert_value in utils.py: a python or numpy
scalar (0-dim arrays included), a rank-1 vector, or a rank-greater-1 array. -/
inductive Value where
  | scalar (q : ℚ)
  | vec (l : List ℚ)
  | arr (a : List (List ℚ))
deriving DecidableEq

/-- convert_value from utils.py: scalars stay scalars; a rank-1 array of
length 1, or any rank-1 array when num_channels is 1, or one shorter than
num_channels, degrades to its first element; otherwise a rank-1 array is
truncated to the first num_channels entries; a rank-greater-1 array is
returned as-is. -/
def convert_value (v : Value) (num_channels : ℕ) : Value :=
  match v with
  | .scalar q => .scalar q
  | .vec l =>
      if l.length = 1 ∨ num_channels = 1 ∨ l.length < num_channels then .scalar (l.headD 0)
      else .vec (l.take num_channels)
  | .arr a => .arr a

/-- The elementwise arithmetic operations dispatched through np_operations /
cv2_operations in functions.py. -/
inductive Op where
  | add
  | multiply
  | power
deriving DecidableEq

/-- The numpy float32 elementwise ufuncs, kept abstract: theorems comparing
two code paths that call the same ufunc on the same data hold for every
interpretation, in particular for real float32 arithmetic. -/
structure FloatOps where
  fmul : ℚ → ℚ → ℚ
  fadd : ℚ → ℚ → ℚ
  fpow : ℚ → ℚ → ℚ
  fsub : ℚ → ℚ → ℚ

/-- np_operations from functions.py. -/
def np_operations (F : FloatOps) (op : Op) : ℚ → ℚ → ℚ :=
  match op with
  | .multiply => F.fmul
  | .add => F.fadd
  | .power => F.fpow

/-- A concrete FloatOps instantiation used by witnesses and counterexamples:
exact rational product and sum (float32 arithmetic is exact on them whenever
operands and result are small integers, as in every concrete input used
below), and exact integer power. -/
def exactOps : FloatOps :=
  ⟨fun a b => a * b, fun a b => a + b, fun a b => a ^ truncQ b, fun a b => a - b⟩

/- ----------------------------------------------------------------
Lemmas about clipping, and claim C2.
---------------------------------------------------------------- -/

theorem MAX_VALUES_pos (d : Dtype) : 0 < MAX_VALUES_BY_DTYPE d := by
  cases d <;> norm_num [MAX_VALUES_BY_DTYPE]

theorem clampQ_mem (lo hi q : ℚ) (h : lo ≤ hi) :
    lo ≤ clampQ lo hi q ∧ clampQ lo hi q ≤ hi := by
  unfold clampQ
  constructor
  · exact le_max_left lo _
  · exact max_le h (min_le_left hi q)

theorem truncQ_of_nonneg (q : ℚ) (h : 0 ≤ q) : truncQ q = ⌊q⌋ := by
  unfold truncQ
  rw [if_neg (not_lt.mpr h)]

theorem clipBound_nonneg (src d : Dtype) : 0 ≤ clipBound src d := by
  unfold clipBound
  split_ifs
  · exact roundFl_nonneg _ _
  · exact le_of_lt (MAX_VALUES_pos d)

/-- Every source dtype represents the uint8 bound 255 exactly. -/
theorem clipBound_uint8 (src : Dtype) : clipBound src .uint8 = 255 := by
  unfold clipBound
  have h255 : roundFl (precOf src) ((255:ℚ)) = (255:ℚ) := by
    have h := roundFl_natCast (precOf src) 255 (by cases src <;> norm_num [precOf])
    norm_num at h
    exact h
  split_ifs
  · rw [show MAX_VALUES_BY_DTYPE .uint8 = (255:ℚ) from rfl]
    exact h255
  · rfl

/-- float32 represents the uint16 bound 65535 exactly. -/
theorem clipBound_f32_uint16 : clipBound .float32 .uint16 = 65535 := by
  unfold clipBound
  rw [if_pos (show isFloat .float32 = true from rfl),
    show precOf .float32 = 23 from rfl,
    show MAX_VALUES_BY_DTYPE .uint16 = (((65535:ℕ)):ℚ) from by norm_num [MAX_VALUES_BY_DTYPE]]
  have h := roundFl_natCast 23 65535 (by norm_num)
  norm_num at h ⊢
  exact h

/-- Every source dtype represents the float bound 1.0 exactly. -/
theorem clipBound_float_target (src d : Dtype) (hd : isFloat d = true) :
    clipBound src d = 1 := by
  have hmax : MAX_VALUES_BY_DTYPE d = 1 := by
    cases d <;> first | rfl | exact absurd hd (by decide)
  unfold clipBound
  rw [hmax]
  split_ifs
  · have h := roundFl_natCast (precOf src) 1 (by cases src <;> norm_num [precOf])
    norm_num at h
    exact h
  · rfl

/-- Whatever the source dtype makes of the int32 bound 2147483647, it is at
most 2 ^ 31 (float32 and float16 round it up to exactly 2 ^ 31). -/
theorem clipBound_int32_le (src : Dtype) : clipBound src .int32 ≤ 2147483648 := by
  unfold clipBound
  split_ifs
  · have h := roundFl_le_pow (precOf src) (MAX_VALUES_BY_DTYPE .int32) 31
      (by norm_num [MAX_VALUES_BY_DTYPE])
    calc roundFl (precOf src) (MAX_VALUES_BY_DTYPE .int32) ≤ (2:ℚ) ^ (31:ℤ) := h
      _ = 2147483648 := by norm_num
  · norm_num [MAX_VALUES_BY_DTYPE]

theorem castValue_zero (d : Dtype) : castValue d 0 = 0 := by
  have ht : truncQ 0 = 0 := by
    have h := truncQ_intCast 0
    norm_num at h
    exact h
  cases d
  · show ((truncQ 0 % 2 ^ 8 : ℤ) : ℚ) = 0
    rw [ht]
    norm_num
  · show ((truncQ 0 % 2 ^ 16 : ℤ) : ℚ) = 0
    rw [ht]
    norm_num
  · show ((truncQ 0 % 2 ^ 32 : ℤ) : ℚ) = 0
    rw [ht]
    norm_num
  · show (if -2 ^ 31 ≤ truncQ 0 ∧ truncQ 0 < 2 ^ 31 then ((truncQ 0 : ℤ) : ℚ)
      else ((-2 ^ 31 : ℤ) : ℚ)) = 0
    rw [ht]
    norm_num
  · exact roundFl_zero 10
  · exact roundFl_zero 23
  · exact roundFl_zero 52

/-- astype is the identity on integer values inside the target range. -/
theorem castValue_int_id (d : Dtype) (hf : isFloat d = false) (m : ℤ)
    (h0 : 0 ≤ m) (hm : (m : ℚ) ≤ MAX_VALUES_BY_DTYPE d) :
    castValue d ((m : ℚ)) = ((m : ℚ)) := by
  have ht : truncQ ((m : ℚ)) = m := truncQ_intCast m
  cases d
  · show ((truncQ ((m:ℚ)) % 2 ^ 8 : ℤ) : ℚ) = ((m:ℚ))
    have hm1 : m ≤ 255 := by
      rw [show MAX_VALUES_BY_DTYPE .uint8 = (((255:ℤ)):ℚ) from by norm_num [MAX_VALUES_BY_DTYPE]] at hm
      exact_mod_cast hm
    rw [ht, Int.emod_eq_of_lt h0 (lt_of_le_of_lt hm1 (by norm_num))]
  · show ((truncQ ((m:ℚ)) % 2 ^ 16 : ℤ) : ℚ) = ((m:ℚ))
    have hm1 : m ≤ 65535 := by
      rw [show MAX_VALUES_BY_DTYPE .uint16 = (((65535:ℤ)):ℚ) from by norm_num [MAX_VALUES_BY_DTYPE]] at hm
      exact_mod_cast hm
    rw [ht, Int.emod_eq_of_lt h0 (lt_of_le_of_lt hm1 (by norm_num))]
  · show ((truncQ ((m:ℚ)) % 2 ^ 32 : ℤ) : ℚ) = ((m:ℚ))
    have hm1 : m ≤ 4294967295 := by
      rw [show MAX_VALUES_BY_DTYPE .uint32 = (((4294967295:ℤ)):ℚ) from by norm_num [MAX_VALUES_BY_DTYPE]] at hm
      exact_mod_cast hm
    rw [ht, Int.emod_eq_of_lt h0 (lt_of_le_of_lt hm1 (by norm_num))]
  · show (if -2 ^ 31 ≤ truncQ ((m:ℚ)) ∧ truncQ ((m:ℚ)) < 2 ^ 31 then ((truncQ ((m:ℚ)) : ℤ) : ℚ)
      else ((-2 ^ 31 : ℤ) : ℚ)) = ((m:ℚ))
    have hm1 : m ≤ 2147483647 := by
      rw [show MAX_VALUES_BY_DTYPE .int32 = (((2147483647:ℤ)):ℚ) from by norm_num [MAX_VALUES_BY_DTYPE]] at hm
      exact_mod_cast hm
    rw [ht, if_pos ⟨le_trans (by norm_num) h0, lt_of_le_of_lt hm1 (by norm_num)⟩]
  · exact absurd hf (by decide)
  · exact absurd hf (by decide)
  · exact absurd hf (by decide)

/-- astype into an unsigned dtype always lands inside its range. -/
theorem castValue_uint_mem (d : Dtype)
    (hd : d = .uint8 ∨ d = .uint16 ∨ d = .uint32) (q : ℚ) :
    0 ≤ castValue d q ∧ castValue d q ≤ MAX_VALUES_BY_DTYPE d := by
  rcases hd with rfl | rfl | rfl
  · constructor
    · show (0:ℚ) ≤ ((truncQ q % 2 ^ 8 : ℤ) : ℚ)
      exact_mod_cast Int.emod_nonneg (truncQ q) (by norm_num)
    · show ((truncQ q % 2 ^ 8 : ℤ) : ℚ) ≤ (255:ℚ)
      have h := Int.emod_lt_of_pos (truncQ q) (by norm_num : (0:ℤ) < 2 ^ 8)
      have h2 : truncQ q % 2 ^ 8 ≤ 255 := by
        have h3 : (2:ℤ) ^ 8 = 256 := by norm_num
        omega
      exact_mod_cast h2
  · constructor
    · show (0:ℚ) ≤ ((truncQ q % 2 ^ 16 : ℤ) : ℚ)
      exact_mod_cast Int.emod_nonneg (truncQ q) (by norm_num)
    · show ((truncQ q % 2 ^ 16 : ℤ) : ℚ) ≤ (65535:ℚ)
      have h := Int.emod_lt_of_pos (truncQ q) (by norm_num : (0:ℤ) < 2 ^ 16)
      have h2 : truncQ q % 2 ^ 16 ≤ 65535 := by
        have h3 : (2:ℤ) ^ 16 = 65536 := by norm_num
        omega
      exact_mod_cast h2
  · constructor
    · show (0:ℚ) ≤ ((truncQ q % 2 ^ 32 : ℤ) : ℚ)
      exact_mod_cast Int.emod_nonneg (truncQ q) (by norm_num)
    · show ((truncQ q % 2 ^ 32 : ℤ) : ℚ) ≤ (4294967295:ℚ)
      have h := Int.emod_lt_of_pos (truncQ q) (by norm_num : (0:ℤ) < 2 ^ 32)
      have h2 : truncQ q % 2 ^ 32 ≤ 4294967295 := by
        have h3 : (2:ℤ) ^ 32 = 4294967296 := by norm_num
        omega
      exact_mod_cast h2

/-- Range of clipScalar: the result lies in [0, max(target)] for every
target except int32 fed from a float source with a value reaching 2 ^ 31
(where the astype overflows to -2 ^ 31). -/
theorem clipScalar_mem (src d : Dtype) (q : ℚ)
    (h : d = .int32 → isFloat src = true → q < 2147483648) :
    0 ≤ clipScalar src d q ∧ clipScalar src d q ≤ MAX_VALUES_BY_DTYPE d := by
  unfold clipScalar
  have hbnn : 0 ≤ clipBound src d := clipBound_nonneg src d
  obtain ⟨hcl, hcr⟩ := clampQ_mem 0 (clipBound src d) q hbnn
  by_cases hfd : isFloat d = true
  · rw [clipBound_float_target src d hfd] at hcl hcr ⊢
    have hcast : castValue d (clampQ 0 1 q) = roundFl (precOf d) (clampQ 0 1 q) := by
      cases d <;> first | rfl | exact absurd hfd (by decide)
    rw [hcast]
    constructor
    · exact roundFl_nonneg _ _
    · have h1 : MAX_VALUES_BY_DTYPE d = (2:ℚ) ^ (0:ℤ) := by
        cases d <;> first | (exact absurd hfd (by decide)) | norm_num [MAX_VALUES_BY_DTYPE]
      rw [h1]
      exact roundFl_le_pow _ _ 0 (by rw [zpow_zero]; exact hcr)
  · cases d
    · exact castValue_uint_mem .uint8 (Or.inl rfl) _
    · exact castValue_uint_mem .uint16 (Or.inr (Or.inl rfl)) _
    · exact castValue_uint_mem .uint32 (Or.inr (Or.inr rfl)) _
    · have hq31 : clampQ 0 (clipBound src .int32) q < 2147483648 := by
        by_cases hfs : isFloat src = true
        · have hq := h rfl hfs
          unfold clampQ
          exact max_lt (by norm_num) (lt_of_le_of_lt (min_le_right _ _) hq)
        · have hb : clipBound src .int32 = 2147483647 := by
            unfold clipBound
            rw [if_neg hfs]
            norm_num [MAX_VALUES_BY_DTYPE]
          calc clampQ 0 (clipBound src .int32) q ≤ clipBound src .int32 := hcr
            _ = 2147483647 := hb
            _ < 2147483648 := by norm_num
      have hvnn : 0 ≤ clampQ 0 (clipBound src .int32) q := hcl
      have ht : truncQ (clampQ 0 (clipBound src .int32) q)
          = ⌊clampQ 0 (clipBound src .int32) q⌋ := truncQ_of_nonneg _ hvnn
      have htnn : (0:ℤ) ≤ ⌊clampQ 0 (clipBound src .int32) q⌋ :=
        Int.le_floor.mpr (by exact_mod_cast hvnn)
      have htlt : ⌊clampQ 0 (clipBound src .int32) q⌋ < 2 ^ 31 := by
        have h1 : ((⌊clampQ 0 (clipBound src .int32) q⌋ : ℤ) : ℚ)
            ≤ clampQ 0 (clipBound src .int32) q := Int.floor_le _
        have h2 : ⌊clampQ 0 (clipBound src .int32) q⌋ < (2147483648:ℤ) := by
          exact_mod_cast lt_of_le_of_lt h1 hq31
        exact lt_of_lt_of_le h2 (by norm_num)
      have hcv : castValue .int32 (clampQ 0 (clipBound src .int32) q)
          = ((⌊clampQ 0 (clipBound src .int32) q⌋ : ℤ) : ℚ) := by
        show (if -2 ^ 31 ≤ truncQ (clampQ 0 (clipBound src .int32) q) ∧
            truncQ (clampQ 0 (clipBound src .int32) q) < 2 ^ 31
          then ((truncQ (clampQ 0 (clipBound src .int32) q) : ℤ) : ℚ)
          else ((-2 ^ 31 : ℤ) : ℚ))
          = ((⌊clampQ 0 (clipBound src .int32) q⌋ : ℤ) : ℚ)
        rw [ht, if_pos ⟨le_trans (by norm_num) htnn, htlt⟩]
      rw [hcv]
      constructor
      · exact_mod_cast htnn
      · have h5 : ⌊clampQ 0 (clipBound src .int32) q⌋ ≤ 2147483647 := by
          have h6 : ⌊clampQ 0 (clipBound src .int32) q⌋ < (2147483648:ℤ) :=
            lt_of_lt_of_le htlt (by norm_num)
          omega
        have h7 : MAX_VALUES_BY_DTYPE .int32 = ((2147483647:ℤ):ℚ) := by
          norm_num [MAX_VALUES_BY_DTYPE]
        rw [h7]
        exact_mod_cast h5
    · exact absurd rfl hfd
    · exact absurd rfl hfd
    · exact absurd rfl hfd

/-- C2 (amended).  clip always returns a buffer whose dtype is exactly the
target type, and, whenever the target is not int32 fed from a float-dtype
buffer holding values of 2 ^ 31 or more, every element of the result lies
within [0, max(target)].  The model of clip is a total function: it never
raises, whatever the input values are.  (For the int32 target with a float32
source, numpy represents the clip bound 2147483647 as 2 ^ 31 and astype
overflows values clipped to 2 ^ 31 into -2 ^ 31: see the counterexample.) -/
theorem clip_dtype_and_range (b : Buffer) (d : Dtype)
    (h : d = .int32 → isFloat b.dtype = true →
      ∀ row ∈ b.pix, ∀ x ∈ row, x < 2147483648) :
    (clip b d).dtype = d ∧
      ∀ row ∈ (clip b d).pix, ∀ x ∈ row, 0 ≤ x ∧ x ≤ MAX_VALUES_BY_DTYPE d := by
  refine ⟨rfl, ?_⟩
  intro row hrow x hx
  unfold clip at hrow
  simp only [List.mem_map] at hrow
  obtain ⟨orow, horowm, horow⟩ := hrow
  rw [← horow] at hx
  simp only [List.mem_map] at hx
  obtain ⟨y, hym, hy⟩ := hx
  rw [← hy]
  exact clipScalar_mem b.dtype d y (fun hd hf => h hd hf orow horowm y hym)

/-- clipScalar into uint8, evaluated through the exact clamp (the bound 255
is exact in every source dtype). -/
theorem clipScalar_u8_eval (src : Dtype) (q : ℚ) (m : ℤ) (h1 : clampQ 0 255 q = (m:ℚ)) :
    clipScalar src .uint8 q = (m:ℚ) := by
  unfold clipScalar
  rw [clipBound_uint8 src, h1]
  obtain ⟨h2, h3⟩ := clampQ_mem 0 255 q (by norm_num)
  rw [h1] at h2 h3
  exact castValue_int_id .uint8 rfl m (by exact_mod_cast h2)
    (by rw [show MAX_VALUES_BY_DTYPE .uint8 = (255:ℚ) from rfl]; exact h3)

/-- Witness for C2 at a concrete out-of-range input: clipping the float64
buffer [[300, -7]] to uint8 yields [[255, 0]], inside [0, 255]. -/
theorem clip_dtype_and_range_witness :
    (clip ⟨.float64, [1, 1, 2], [[300, -7]]⟩ .uint8).pix = [[(255:ℚ), 0]] ∧
      (0:ℚ) ≤ 255 ∧ (255:ℚ) ≤ MAX_VALUES_BY_DTYPE .uint8 := by
  have h300 : clipScalar .float64 .uint8 300 = 255 := by
    have h := clipScalar_u8_eval .float64 300 255 (by unfold clampQ; norm_num)
    exact_mod_cast h
  have hm7 : clipScalar .float64 .uint8 (-7) = 0 := by
    have h := clipScalar_u8_eval .float64 (-7) 0 (by unfold clampQ; norm_num)
    exact_mod_cast h
  have hpix : (clip ⟨.float64, [1, 1, 2], [[300, -7]]⟩ .uint8).pix = [[(255:ℚ), 0]] := by
    unfold clip
    simp [h300, hm7]
  refine ⟨hpix, ?_⟩
  have hmem := (clip_dtype_and_range ⟨.float64, [1, 1, 2], [[300, -7]]⟩ .uint8
    (fun hd => absurd hd (by decide))).2
  have h1 := hmem [(255:ℚ), 0] (by rw [hpix]; exact List.mem_singleton.mpr rfl) 255
    (by simp)
  exact ⟨h1.1, h1.2⟩


/- ----------------------------------------------------------------
List access helper lemmas.
---------------------------------------------------------------- -/

/-- np.arange(0, m) as a list of rationals. -/
def arangeQ (m : ℕ) : List ℚ := (List.range m).map (fun i : ℕ => (i : ℚ))

theorem list_getD_range_map (f : ℕ → ℚ) {n m : ℕ} (h : n < m) :
    ((List.range m).map f).getD n 0 = f n := by
  rw [List.getD_eq_getElem _ 0 (by simpa using h)]
  simp

theorem list_getD_arange_map (f : ℚ → ℚ) {n m : ℕ} (h : n < m) :
    ((arangeQ m).map f).getD n 0 = f ((n:ℕ):ℚ) := by
  unfold arangeQ
  rw [List.map_map]
  exact list_getD_range_map _ h

theorem list_getD_mem (l : List ℚ) (n : ℕ) (h : n < l.length) : l.getD n 0 ∈ l := by
  rw [List.getD_eq_getElem l 0 h]
  exact List.getElem_mem h

theorem list_getD_map_of_lt {α β : Type} (f : α → β) (l : List α) (dA : α) (dB : β)
    (i : ℕ) (h : i < l.length) : (l.map f).getD i dB = f (l.getD i dA) := by
  rw [List.getD_eq_getElem _ dB (by simpa using h), List.getD_eq_getElem _ dA h]
  simp

/- ----------------------------------------------------------------
Lookup tables: create_lut_array, sz_lut / apply_lut (functions.py).
---------------------------------------------------------------- -/

/-- np.trunc (respectively the int cast) applied elementwise to an operand. -/
def truncValue (v : Value) : Value :=
  match v with
  | .scalar q => .scalar ((truncQ q : ℤ) : ℚ)
  | .vec l => .vec (l.map (fun q => ((truncQ q : ℤ) : ℚ)))
  | .arr a => .arr (a.map (List.map (fun q => ((truncQ q : ℤ) : ℚ))))

/-- value.reshape(-1, 1) in create_lut_array: the list of rows of the
reshaped operand (a scalar is one row, a vector one row per entry, an
array one row per flattened entry). -/
def valueRows (v : Value) : List ℚ :=
  match v with
  | .scalar q => [q]
  | .vec l => l
  | .arr a => a.flatten

/-- create_lut_array from functions.py: for uint8 add the operand is first
truncated toward zero; the table holds, for every index i in [0, max_value],
the raw float32 value of the operation applied to (i, w), one row per
operand row.  Operands are taken at their float32 values
(np.array(value, dtype=np.float32)). -/
def create_lut_array (F : FloatOps) (dtype : Dtype) (value : Value) (operation : Op) :
    List (List ℚ) :=
  let v2 := if dtype = .uint8 ∧ operation = .add then truncValue value else value
  (valueRows v2).map (fun w =>
    (arangeQ (maxNat dtype + 1)).map (fun i => np_operations F operation i w))

/-- Elementwise table lookup: the model of sz.translate (sz_lut) and of
cv2.LUT indexing.  Faithful when the indexed pixel holds an integer within
table range. -/
def lutGet (lut : List ℚ) (p : ℚ) : ℚ := lut.getD (truncQ p).toNat 0

/-- The tables apply_lut actually feeds to sz_lut: the raw tables of
create_lut_array (float32 arrays), clipped to the image dtype BEFORE being
applied to the image. -/
def lutsUsed (F : FloatOps) (dtype : Dtype) (value : Value) (operation : Op) :
    List (List ℚ) :=
  (create_lut_array F dtype value operation).map (List.map (clipScalar .float32 dtype))

/-- The non-scalar branch of apply_lut: one clipped table per channel,
applied channel by channel into a float32 result array. -/
def apply_lut_multi (F : FloatOps) (img : Buffer) (value : Value) (operation : Op) :
    Buffer :=
  ⟨.float32, img.shape,
    img.pix.map (fun row =>
      (List.range (img.shape.getLastD 0)).map (fun i =>
        lutGet ((lutsUsed F img.dtype value operation).getD i []) (row.getD i 0)))⟩

/-- apply_lut from functions.py: for a scalar operand, one clipped table
applied to the whole image (the result keeps the image dtype); otherwise one
clipped table per channel (apply_lut_multi).  The inplace flag only controls
aliasing. -/
def apply_lut (F : FloatOps) (img : Buffer) (value : Value) (operation : Op)
    (_inplace : Bool) : Buffer :=
  match value with
  | .scalar q =>
      ⟨img.dtype, img.shape,
        img.pix.map (List.map (lutGet ((lutsUsed F img.dtype (.scalar q) operation).headD [])))⟩
  | .vec l => apply_lut_multi F img (.vec l) operation
  | .arr a => apply_lut_multi F img (.arr a) operation

/-- The pixel values apply_lut would produce if the raw (unclipped) tables of
create_lut_array were applied directly, with no clipping anywhere. -/
def apply_lut_unclipped (F : FloatOps) (img : Buffer) (value : Value) (operation : Op) :
    List (List ℚ) :=
  match value with
  | .scalar q =>
      img.pix.map (List.map (lutGet ((create_lut_array F img.dtype (.scalar q) operation).headD [])))
  | .vec l =>
      img.pix.map (fun row =>
        (List.range (img.shape.getLastD 0)).map (fun i =>
          lutGet ((create_lut_array F img.dtype (.vec l) operation).getD i []) (row.getD i 0)))
  | .arr a =>
      img.pix.map (fun row =>
        (List.range (img.shape.getLastD 0)).map (fun i =>
          lutGet ((create_lut_array F img.dtype (.arr a) operation).getD i []) (row.getD i 0)))

/-- apply_numpy from functions.py: cast the image to float32 and apply the
numpy ufunc with broadcasting (a scalar against every element, a rank-1
vector along the channel axis, an array elementwise).  For add on uint8
images the operand is first cast through np.int16 (truncation; the int16
wraparound for out-of-range operands is not modelled). -/
def apply_numpy (F : FloatOps) (img : Buffer) (value : Value) (operation : Op) : Buffer :=
  match (if operation = .add ∧ img.dtype = .uint8 then truncValue value else value) with
  | .scalar q =>
      ⟨.float32, img.shape,
        img.pix.map (List.map (fun x => np_operations F operation (castValue .float32 x) q))⟩
  | .vec l =>
      ⟨.float32, img.shape,
        img.pix.map (fun row =>
          (List.range row.length).map (fun i =>
            np_operations F operation (castValue .float32 (row.getD i 0)) (l.getD i 0)))⟩
  | .arr a =>
      ⟨.float32, img.shape,
        (List.range img.pix.length).map (fun r =>
          (List.range ((img.pix.getD r []).length)).map (fun i =>
            np_operations F operation (castValue .float32 ((img.pix.getD r []).getD i 0))
              ((a.getD r []).getD i 0)))⟩

/- ----------------------------------------------------------------
Clipping structure lemmas.
---------------------------------------------------------------- -/

theorem clipScalar_zero (src d : Dtype) : clipScalar src d 0 = 0 := by
  unfold clipScalar clampQ
  rw [min_eq_right (clipBound_nonneg src d), max_self]
  exact castValue_zero d

theorem lutGet_map_clip (src d : Dtype) (lut : List ℚ) (p : ℚ) :
    lutGet (lut.map (clipScalar src d)) p = clipScalar src d (lutGet lut p) := by
  unfold lutGet
  have h := List.getD_map lut 0 (clipScalar src d) (n := (truncQ p).toNat)
  rw [clipScalar_zero src d] at h
  exact h

/-- For a non-float target dtype, clipScalar always produces an integer
value. -/
theorem clipScalar_int (src d : Dtype) (h : isFloat d = false) (q : ℚ) :
    ∃ m : ℤ, clipScalar src d q = (m : ℚ) := by
  unfold clipScalar
  cases d
  · simp only [castValue]
    exact ⟨_, rfl⟩
  · simp only [castValue]
    exact ⟨_, rfl⟩
  · simp only [castValue]
    exact ⟨_, rfl⟩
  · simp only [castValue]
    split_ifs
    · exact ⟨_, rfl⟩
    · exact ⟨_, rfl⟩
  · exact absurd h (by decide)
  · exact absurd h (by decide)
  · exact absurd h (by decide)

/-- Clipping to uint8 is idempotent: a second clip, from any source dtype,
of an already clipped value changes nothing. -/
theorem clipScalar_idem (src1 src2 : Dtype) (q : ℚ) :
    clipScalar src2 .uint8 (clipScalar src1 .uint8 q) = clipScalar src1 .uint8 q := by
  obtain ⟨hl, hr⟩ := clipScalar_mem src1 .uint8 q (fun hc => absurd hc (by decide))
  obtain ⟨m, hm⟩ := clipScalar_int src1 .uint8 rfl q
  rw [hm] at hl hr ⊢
  have hr2 : (m:ℚ) ≤ 255 := hr
  apply clipScalar_u8_eval
  unfold clampQ
  rw [min_eq_right hr2, max_eq_right hl]

theorem truncQ_natCast (n : ℕ) : truncQ ((n:ℕ):ℚ) = (n:ℤ) := by
  have h := truncQ_intCast (n:ℤ)
  rw [show (((n:ℕ):ℤ):ℚ) = ((n:ℕ):ℚ) by push_cast; ring] at h
  exact h

theorem castValue_f32_nat (n : ℕ) (h : n < 2 ^ 24) :
    castValue .float32 ((n:ℕ):ℚ) = ((n:ℕ):ℚ) := by
  show roundFl 23 ((n:ℕ):ℚ) = ((n:ℕ):ℚ)
  exact roundFl_natCast 23 n h

theorem create_lut_array_scalar (F : FloatOps) (d : Dtype) (q : ℚ) (op : Op) :
    create_lut_array F d (.scalar q) op =
      [(arangeQ (maxNat d + 1)).map (fun i => np_operations F op i
        (if d = .uint8 ∧ op = .add then ((truncQ q : ℤ) : ℚ) else q))] := by
  unfold create_lut_array truncValue valueRows
  split_ifs with h <;> simp

/-- C7 (amended).  apply_lut clips the lookup tables BEFORE applying them to
the image; since table lookup commutes with elementwise clipping, the
resulting pixel values equal those of applying the raw (unclipped) tables of
create_lut_array and then clipping every output value to the dtype range
(both the tables and the raw outputs are float32 data, so both clips see
the bound through float32). -/
theorem apply_lut_clips_tables_before_use (F : FloatOps) (img : Buffer) (v : Value)
    (op : Op) (ip : Bool) :
    (apply_lut F img v op ip).pix =
      (apply_lut_unclipped F img v op).map (List.map (clipScalar .float32 img.dtype)) := by
  cases v with
  | scalar q =>
      show (img.pix.map (List.map (lutGet ((lutsUsed F img.dtype (.scalar q) op).headD [])))) =
        (img.pix.map (List.map (lutGet ((create_lut_array F img.dtype (.scalar q) op).headD [])))).map
          (List.map (clipScalar .float32 img.dtype))
      rw [List.map_map]
      apply List.map_congr_left
      intro row _
      simp only [Function.comp_apply, List.map_map]
      apply List.map_congr_left
      intro x _
      simp only [Function.comp_apply]
      rw [lutsUsed, create_lut_array_scalar]
      simp only [List.map_cons, List.map_nil, List.headD_cons]
      exact lutGet_map_clip .float32 img.dtype _ x
  | vec l =>
      show (apply_lut_multi F img (.vec l) op).pix =
        (img.pix.map (fun row =>
          (List.range (img.shape.getLastD 0)).map (fun i =>
            lutGet ((create_lut_array F img.dtype (.vec l) op).getD i []) (row.getD i 0)))).map
          (List.map (clipScalar .float32 img.dtype))
      unfold apply_lut_multi
      rw [List.map_map]
      apply List.map_congr_left
      intro row _
      simp only [Function.comp_apply, List.map_map]
      apply List.map_congr_left
      intro i _
      simp only [Function.comp_apply]
      unfold lutsUsed
      have h := List.getD_map (create_lut_array F img.dtype (.vec l) op) []
        (List.map (clipScalar .float32 img.dtype)) (n := i)
      simp only [List.map_nil] at h
      rw [h, lutGet_map_clip]
  | arr a =>
      show (apply_lut_multi F img (.arr a) op).pix =
        (img.pix.map (fun row =>
          (List.range (img.shape.getLastD 0)).map (fun i =>
            lutGet ((create_lut_array F img.dtype (.arr a) op).getD i []) (row.getD i 0)))).map
          (List.map (clipScalar .float32 img.dtype))
      unfold apply_lut_multi
      rw [List.map_map]
      apply List.map_congr_left
      intro row _
      simp only [Function.comp_apply, List.map_map]
      apply List.map_congr_left
      intro i _
      simp only [Function.comp_apply]
      unfold lutsUsed
      have h := List.getD_map (create_lut_array F img.dtype (.arr a) op) []
        (List.map (clipScalar .float32 img.dtype)) (n := i)
      simp only [List.map_nil] at h
      rw [h, lutGet_map_clip]

/-- Specialization of create_lut_array to a scalar multiply operand. -/
theorem create_lut_array_scalar_mul (F : FloatOps) (d : Dtype) (q : ℚ) :
    create_lut_array F d (.scalar q) .multiply =
      [(arangeQ (maxNat d + 1)).map (fun i => F.fmul i q)] := by
  rw [create_lut_array_scalar]
  simp [np_operations]

/-- C7 counterexample.  The table apply_lut actually uses for the uint8
multiply-by-2 LUT is pre-clipped: its entry at index 200 is 255, while the
raw float table built by create_lut_array holds 400 there.  (On these small
integers float32 multiplication is exact, so exactOps is the real float32
semantics here.)  The table entries used for lookup are therefore clipped
before application, contrary to the claim. -/
theorem lut_entries_used_are_preclipped :
    ((lutsUsed exactOps .uint8 (.scalar 2) .multiply).headD []).getD 200 0 = 255 ∧
      ((create_lut_array exactOps .uint8 (.scalar 2) .multiply).headD []).getD 200 0 = 400 ∧
      lutsUsed exactOps .uint8 (.scalar 2) .multiply
        ≠ create_lut_array exactOps .uint8 (.scalar 2) .multiply := by
  have hent : ((arangeQ (maxNat .uint8 + 1)).map
      (fun i => exactOps.fmul i 2)).getD 200 0 = 400 := by
    rw [show maxNat .uint8 + 1 = 256 from rfl]
    rw [list_getD_arange_map _ (by norm_num : (200:ℕ) < 256)]
    norm_num [exactOps]
  have hraw : ((create_lut_array exactOps .uint8 (.scalar 2) .multiply).headD []).getD 200 0
      = 400 := by
    rw [create_lut_array_scalar_mul]
    simp only [List.headD_cons]
    exact hent
  have hclip : ((lutsUsed exactOps .uint8 (.scalar 2) .multiply).headD []).getD 200 0
      = 255 := by
    unfold lutsUsed
    rw [create_lut_array_scalar_mul]
    simp only [List.map_cons, List.map_nil, List.headD_cons]
    have h5 := List.getD_map ((arangeQ (maxNat .uint8 + 1)).map
      (fun i => exactOps.fmul i 2)) 0 (clipScalar .float32 .uint8) (n := 200)
    rw [clipScalar_zero] at h5
    rw [h5, hent]
    exact clipScalar_u8_eval .float32 400 255 (by unfold clampQ; norm_num)
  refine ⟨hclip, hraw, ?_⟩
  intro h
  have h4 := congrArg (fun L => (L.headD []).getD 200 0) h
  simp only at h4
  rw [hclip, hraw] at h4
  norm_num at h4

theorem lutGet_arange_map (f : ℚ → ℚ) {n m : ℕ} (h : n < m) :
    lutGet ((arangeQ m).map f) ((n:ℕ):ℚ) = f ((n:ℕ):ℚ) := by
  unfold lutGet
  rw [truncQ_natCast, Int.toNat_natCast]
  exact list_getD_arange_map f h

/-- Specialization of create_lut_array to a vector multiply operand. -/
theorem create_lut_array_vec_mul (F : FloatOps) (d : Dtype) (l : List ℚ) :
    create_lut_array F d (.vec l) .multiply =
      l.map (fun w => (arangeQ (maxNat d + 1)).map (fun i => F.fmul i w)) := by
  unfold create_lut_array valueRows
  simp [np_operations]

/-- Specialization of create_lut_array to an array multiply operand. -/
theorem create_lut_array_arr_mul (F : FloatOps) (d : Dtype) (a : List (List ℚ)) :
    create_lut_array F d (.arr a) .multiply =
      a.flatten.map (fun w => (arangeQ (maxNat d + 1)).map (fun i => F.fmul i w)) := by
  unfold create_lut_array valueRows
  simp [np_operations]

/-- C1 (amended).  For uint8 images and scalar or per-channel-vector
multipliers, the LUT path of multiply (apply_lut with operation multiply,
then the dtype clip) agrees with the vectorized float32 path (apply_numpy
with multiply, then the same dtype clip) at every pixel.  Both paths invoke
the same float32 multiplication, modelled by the abstract F.fmul, so the
theorem holds for real float32 semantics.  (For general array multipliers
the equivalence fails; see the counterexample.) -/
theorem multiply_lut_path_eq_numpy_path (F : FloatOps) (b : Buffer) (v : Value) (ip : Bool)
    (hdt : b.dtype = .uint8)
    (hlen : ∀ row ∈ b.pix, row.length = get_num_channels b)
    (hval : ∀ row ∈ b.pix, ∀ x ∈ row, ∃ n : ℕ, x = ((n:ℕ):ℚ) ∧ n ≤ 255)
    (hv : (∃ q, v = .scalar q) ∨ ∃ l, v = .vec l ∧ l.length = get_num_channels b) :
    clip (apply_lut F b v .multiply ip) .uint8 = clip (apply_numpy F b v .multiply) .uint8 := by
  obtain ⟨bd, bs, bp⟩ := b
  simp only [Buffer.mk.injEq] at hdt ⊢
  subst hdt
  rcases hv with ⟨q, rfl⟩ | ⟨l, rfl, hlc⟩
  · -- scalar multiplier
    show clip ⟨.uint8, bs, bp.map (List.map
        (lutGet ((lutsUsed F .uint8 (.scalar q) .multiply).headD [])))⟩ .uint8
      = clip ⟨.float32, bs, bp.map (List.map
        (fun x => F.fmul (castValue .float32 x) q))⟩ .uint8
    unfold clip
    simp only [Buffer.mk.injEq, true_and]
    rw [List.map_map, List.map_map]
    apply List.map_congr_left
    intro row hrow
    simp only [Function.comp_apply, List.map_map]
    apply List.map_congr_left
    intro x hx
    simp only [Function.comp_apply]
    obtain ⟨n, rfl, hn⟩ := hval row hrow x hx
    rw [lutsUsed, create_lut_array_scalar_mul]
    simp only [List.map_cons, List.map_nil, List.headD_cons]
    rw [lutGet_map_clip, show maxNat .uint8 + 1 = 256 from rfl,
      lutGet_arange_map _ (by omega : n < 256),
      clipScalar_idem .float32 .uint8,
      castValue_f32_nat n (by omega)]
  · -- per-channel vector multiplier
    show clip (apply_lut_multi F ⟨.uint8, bs, bp⟩ (.vec l) .multiply) .uint8
      = clip ⟨.float32, bs, bp.map (fun row =>
          (List.range row.length).map (fun i =>
            F.fmul (castValue .float32 (row.getD i 0)) (l.getD i 0)))⟩ .uint8
    unfold apply_lut_multi clip
    simp only [Buffer.mk.injEq, true_and]
    rw [List.map_map, List.map_map]
    apply List.map_congr_left
    intro row hrow
    simp only [Function.comp_apply]
    have hrl : row.length = bs.getLastD 0 := hlen row hrow
    rw [hrl, List.map_map, List.map_map]
    apply List.map_congr_left
    intro i hi
    have hiC : i < bs.getLastD 0 := List.mem_range.mp hi
    simp only [Function.comp_apply]
    have hix : i < row.length := by rw [hrl]; exact hiC
    obtain ⟨n, hxn, hn⟩ := hval row hrow (row.getD i 0) (list_getD_mem row i hix)
    rw [lutsUsed, create_lut_array_vec_mul]
    have hil : i < l.length := by
      rw [hlc]
      exact hiC
    have hgetmap : ((l.map (fun w => (arangeQ (maxNat .uint8 + 1)).map
          (fun j => F.fmul j w))).map (List.map (clipScalar .float32 .uint8))).getD i [] =
        List.map (clipScalar .float32 .uint8) ((arangeQ (maxNat .uint8 + 1)).map
          (fun j => F.fmul j (l.getD i 0))) := by
      rw [list_getD_map_of_lt (List.map (clipScalar .float32 .uint8)) _
        ((arangeQ (maxNat .uint8 + 1)).map (fun j => F.fmul j 0)) [] i (by simpa using hil)]
      congr 1
      exact list_getD_map_of_lt _ l 0 _ i hil
    rw [hgetmap, hxn, lutGet_map_clip, show maxNat .uint8 + 1 = 256 from rfl,
      lutGet_arange_map _ (by omega : n < 256),
      clipScalar_idem .float32 .float32,
      castValue_f32_nat n (by omega)]

/-- Witness for C1 at a concrete input: a one-pixel uint8 image of value 100
with scalar multiplier 2. -/
theorem multiply_lut_path_eq_numpy_path_witness :
    clip (apply_lut exactOps ⟨.uint8, [1, 1, 1], [[100]]⟩ (.scalar 2) .multiply false) .uint8
      = clip (apply_numpy exactOps ⟨.uint8, [1, 1, 1], [[100]]⟩ (.scalar 2) .multiply) .uint8 := by
  apply multiply_lut_path_eq_numpy_path exactOps ⟨.uint8, [1, 1, 1], [[100]]⟩ (.scalar 2) false rfl
  · intro row hrow
    simp only [List.mem_singleton] at hrow
    subst hrow
    simp [get_num_channels]
  · intro row hrow x hx
    simp only [List.mem_singleton] at hrow
    subst hrow
    simp only [List.mem_singleton] at hx
    subst hx
    exact ⟨100, by norm_num, by norm_num⟩
  · exact Or.inl ⟨2, rfl⟩

/-- C1 counterexample.  For a full-array multiplier the LUT path and the
numpy path disagree: on the uint8 image of shape (2,1,1) with pixels 1, 1
and the array multiplier [[1], [2]], the LUT path rewrites every pixel with
the table of the FIRST flattened multiplier entry only (yielding 1, 1),
while the numpy path multiplies elementwise (yielding 1, 2).  On these small
integers float32 arithmetic is exact, so exactOps is the real float32
semantics here. -/
theorem multiply_lut_path_array_counterexample :
    clip (apply_lut exactOps ⟨.uint8, [2, 1, 1], [[1], [1]]⟩ (.arr [[1], [2]]) .multiply false)
        .uint8
      ≠ clip (apply_numpy exactOps ⟨.uint8, [2, 1, 1], [[1], [1]]⟩ (.arr [[1], [2]]) .multiply)
        .uint8 := by
  have hclip1 : clipScalar .float32 .uint8 1 = 1 := by
    have h := clipScalar_u8_eval .float32 1 1 (by unfold clampQ; norm_num)
    exact_mod_cast h
  have hclip2 : clipScalar .float32 .uint8 2 = 2 := by
    have h := clipScalar_u8_eval .float32 2 2 (by unfold clampQ; norm_num)
    exact_mod_cast h
  have hlutw : ∀ w : ℚ, lutGet (((arangeQ 256).map (fun i => exactOps.fmul i w)).map
      (clipScalar .float32 .uint8)) 1 = clipScalar .float32 .uint8 w := by
    intro w
    rw [lutGet_map_clip]
    rw [show (1:ℚ) = ((1:ℕ):ℚ) by norm_num]
    rw [lutGet_arange_map _ (by norm_num : (1:ℕ) < 256)]
    congr 1
    show ((1:ℕ):ℚ) * w = w
    push_cast
    ring
  have hcast1 : castValue .float32 1 = 1 := by
    have h := castValue_f32_nat 1 (by norm_num)
    exact_mod_cast h
  have hluts : lutsUsed exactOps .uint8 (.arr [[1], [2]]) .multiply
      = [((arangeQ 256).map (fun i => exactOps.fmul i 1)).map (clipScalar .float32 .uint8),
         ((arangeQ 256).map (fun i => exactOps.fmul i 2)).map (clipScalar .float32 .uint8)] := by
    unfold lutsUsed
    rw [create_lut_array_arr_mul]
    rfl
  have hL : (clip (apply_lut exactOps ⟨.uint8, [2, 1, 1], [[1], [1]]⟩ (.arr [[1], [2]])
      .multiply false) .uint8).pix = [[(1:ℚ)], [1]] := by
    have hstep : (clip (apply_lut exactOps ⟨.uint8, [2, 1, 1], [[1], [1]]⟩ (.arr [[1], [2]])
        .multiply false) .uint8).pix
        = [[clipScalar .float32 .uint8 (lutGet
            ((lutsUsed exactOps .uint8 (.arr [[1], [2]]) .multiply).getD 0 []) 1)],
           [clipScalar .float32 .uint8 (lutGet
            ((lutsUsed exactOps .uint8 (.arr [[1], [2]]) .multiply).getD 0 []) 1)]] := rfl
    rw [hstep, hluts]
    show [[clipScalar .float32 .uint8 (lutGet (((arangeQ 256).map (fun i => exactOps.fmul i 1)).map
        (clipScalar .float32 .uint8)) 1)],
      [clipScalar .float32 .uint8 (lutGet (((arangeQ 256).map (fun i => exactOps.fmul i 1)).map
        (clipScalar .float32 .uint8)) 1)]] = [[(1:ℚ)], [1]]
    rw [hlutw 1, hclip1, hclip1]
  have hR : (clip (apply_numpy exactOps ⟨.uint8, [2, 1, 1], [[1], [1]]⟩ (.arr [[1], [2]])
      .multiply) .uint8).pix = [[(1:ℚ)], [2]] := by
    have hstep : (clip (apply_numpy exactOps ⟨.uint8, [2, 1, 1], [[1], [1]]⟩ (.arr [[1], [2]])
        .multiply) .uint8).pix
        = [[clipScalar .float32 .uint8 (exactOps.fmul (castValue .float32 1) 1)],
           [clipScalar .float32 .uint8 (exactOps.fmul (castValue .float32 1) 2)]] := rfl
    rw [hstep, hcast1]
    rw [show exactOps.fmul 1 1 = 1 by norm_num [exactOps]]
    rw [show exactOps.fmul 1 2 = 2 by norm_num [exactOps]]
    rw [hclip1, hclip2]
  intro h
  have h4 := congrArg Buffer.pix h
  rw [hL, hR] at h4
  simp only [List.cons.injEq] at h4
  norm_num at h4

/- ----------------------------------------------------------------
OpenCV-backed arithmetic (external collaborator model) and the
multiply / add / add_weighted dispatchers of functions.py.
---------------------------------------------------------------- -/

/-- The per-(pixel, channel) value of a broadcast operand: a scalar reaches
every element, a rank-1 vector broadcasts along the channel axis, an array
is indexed elementwise. -/
def valAt (v : Value) (r i : ℕ) : ℚ :=
  match v with
  | .scalar q => q
  | .vec l => l.getD i 0
  | .arr a => (a.getD r []).getD i 0

/-- cv2.multiply (external collaborator): float dtypes use the abstract
float multiply; unsigned integer dtypes round and saturate. -/
def cv2Mul (F : FloatOps) (d : Dtype) (a b : ℚ) : ℚ :=
  if isFloat d then F.fmul a b else clampQ 0 (MAX_VALUES_BY_DTYPE d) ((rintQ (a * b) : ℤ) : ℚ)

/-- cv2.add (external collaborator): float dtypes use the abstract float
add; unsigned integer dtypes round and saturate. -/
def cv2Add (F : FloatOps) (d : Dtype) (a b : ℚ) : ℚ :=
  if isFloat d then F.fadd a b else clampQ 0 (MAX_VALUES_BY_DTYPE d) ((rintQ (a + b) : ℤ) : ℚ)

/-- prepare_value_opencv from functions.py (covering _prepare_scalar_value
and _prepare_array_value).  For add on uint8 the scalar is cast to int
(truncation); a scalar on an image with more than four channels becomes a
full array of the scalar; rank-1 operands broadcast along the channel axis;
for add on uint8, an everywhere-nonnegative array operand is clipped to
uint8, a negative-containing one is truncated toward zero (and kept float,
which add_opencv then detects).  float64 array operands are taken at their
float32 values. -/
def prepare_value_opencv (img : Buffer) (value : Value) (operation : Op) : Value :=
  match value with
  | .scalar q =>
      let q2 := if operation = .add ∧ img.dtype = .uint8 then ((truncQ q : ℤ) : ℚ) else q
      if get_num_channels img > MAX_OPENCV_WORKING_CHANNELS then
        .arr (img.pix.map (List.map (fun _ => q2)))
      else .scalar q2
  | .vec l =>
      if operation = .add ∧ img.dtype = .uint8 then
        if l.all (fun x => decide (0 ≤ x)) then .vec (l.map (clipScalar .float32 .uint8))
        else .vec (l.map (fun x => ((truncQ x : ℤ) : ℚ)))
      else .vec l
  | .arr a =>
      if operation = .add ∧ img.dtype = .uint8 then
        if a.all (fun row => row.all (fun x => decide (0 ≤ x))) then
          .arr (a.map (List.map (clipScalar .float32 .uint8)))
        else .arr (a.map (List.map (fun x => ((truncQ x : ℤ) : ℚ))))
      else .arr a

/-- multiply_opencv from functions.py: uint8 images are promoted to float32
before the cv2 multiply (the result is then float32); any other dtype is
multiplied natively.  The preserve_channel_dim decorator only restores array
metadata and is dropped from the model. -/
def multiply_opencv (F : FloatOps) (img : Buffer) (value : Value) : Buffer :=
  let v2 := prepare_value_opencv img value .multiply
  if img.dtype = .uint8 then
    ⟨.float32, img.shape, (List.range img.pix.length).map (fun r =>
      (List.range ((img.pix.getD r []).length)).map (fun i =>
        F.fmul (castValue .float32 ((img.pix.getD r []).getD i 0)) (valAt v2 r i)))⟩
  else
    ⟨img.dtype, img.shape, (List.range img.pix.length).map (fun r =>
      (List.range ((img.pix.getD r []).length)).map (fun i =>
        cv2Mul F img.dtype ((img.pix.getD r []).getD i 0) (valAt v2 r i)))⟩

/-- The needs_float test of add_opencv: a uint8 image with a negative scalar
operand, or with an array/vector operand that prepare_value_opencv left
non-uint8 (i.e. one containing a negative entry). -/
def add_needs_float (img : Buffer) (value : Value) : Bool :=
  decide (img.dtype = .uint8) &&
    (match value with
     | .scalar q => decide (((truncQ q : ℤ) : ℚ) < 0)
     | .vec l => !(l.all (fun x => decide (0 ≤ x)))
     | .arr a => !(a.all (fun row => row.all (fun x => decide (0 ≤ x)))))

/-- add_opencv from functions.py: when needs_float holds, image and operand
are promoted to float32 and added with the float32 add (float32 result);
otherwise the native saturating add runs on the image dtype.  The inplace
flag only selects the destination buffer. -/
def add_opencv (F : FloatOps) (img : Buffer) (value : Value) (_inplace : Bool) : Buffer :=
  let v2 := prepare_value_opencv img value .add
  if add_needs_float img value then
    ⟨.float32, img.shape, (List.range img.pix.length).map (fun r =>
      (List.range ((img.pix.getD r []).length)).map (fun i =>
        F.fadd (castValue .float32 ((img.pix.getD r []).getD i 0))
          (castValue .float32 (valAt v2 r i))))⟩
  else
    ⟨img.dtype, img.shape, (List.range img.pix.length).map (fun r =>
      (List.range ((img.pix.getD r []).length)).map (fun i =>
        cv2Add F img.dtype ((img.pix.getD r []).getD i 0) (valAt v2 r i)))⟩

/-- The clipped decorator from utils.py: a uint8 result is returned as is,
any other result is clipped back to the original image dtype. -/
def clippedWrap (origDtype : Dtype) (result : Buffer) : Buffer :=
  if result.dtype = .uint8 then result else clip result origDtype

/-- multiply_lut from functions.py. -/
def multiply_lut (F : FloatOps) (img : Buffer) (value : Value) (inplace : Bool) : Buffer :=
  apply_lut F img value .multiply inplace

/-- multiply_numpy from functions.py. -/
def multiply_numpy (F : FloatOps) (img : Buffer) (value : Value) : Buffer :=
  apply_numpy F img value .multiply

/-- multiply_by_constant from functions.py (with its clipped decorator). -/
def multiply_by_constant (F : FloatOps) (img : Buffer) (q : ℚ) (inplace : Bool) : Buffer :=
  clippedWrap img.dtype
    (if img.dtype = .uint8 then multiply_lut F img (.scalar q) inplace
     else if img.dtype = .float32 then multiply_numpy F img (.scalar q)
     else multiply_opencv F img (.scalar q))

/-- multiply_by_vector from functions.py (with its clipped decorator). -/
def multiply_by_vector (F : FloatOps) (img : Buffer) (l : List ℚ) (num_channels : ℕ)
    (inplace : Bool) : Buffer :=
  clippedWrap img.dtype
    (if img.dtype = .uint8 then multiply_lut F img (.vec l) inplace
     else if num_channels > MAX_OPENCV_WORKING_CHANNELS then multiply_numpy F img (.vec l)
     else multiply_opencv F img (.vec l))

/-- multiply_by_array from functions.py (with its clipped decorator). -/
def multiply_by_array (F : FloatOps) (img : Buffer) (a : List (List ℚ)) : Buffer :=
  clippedWrap img.dtype (multiply_opencv F img (.arr a))

/-- multiply from functions.py: canonicalize the operand, then dispatch on
its kind. -/
def multiply (F : FloatOps) (img : Buffer) (value : Value) (inplace : Bool) : Buffer :=
  match convert_value value (get_num_channels img) with
  | .scalar q => multiply_by_constant F img q inplace
  | .vec l => multiply_by_vector F img l (get_num_channels img) inplace
  | .arr a => multiply_by_array F img a

/-- The execution strategy multiply selects. -/
inductive Backend where
  | lut
  | numpy
  | opencv
deriving DecidableEq

/-- The backend multiply dispatches to, mirroring the branch structure of
multiply / multiply_by_constant / multiply_by_vector / multiply_by_array. -/
def multiply_backend (img : Buffer) (value : Value) : Backend :=
  match convert_value value (get_num_channels img) with
  | .scalar _ =>
      if img.dtype = .uint8 then .lut
      else if img.dtype = .float32 then .numpy
      else .opencv
  | .vec _ =>
      if img.dtype = .uint8 then .lut
      else if get_num_channels img > MAX_OPENCV_WORKING_CHANNELS then .numpy
      else .opencv
  | .arr _ => .opencv

theorem apply_numpy_dtype (F : FloatOps) (img : Buffer) (v : Value) (op : Op) :
    (apply_numpy F img v op).dtype = .float32 := by
  unfold apply_numpy
  split <;> rfl

/-- C8 (amended).  For float32 images, multiply dispatches to the vectorized
float32 numpy path exactly when the canonicalized operand is a scalar, or a
per-channel vector on an image with more than four channels; in those cases
the result is the dtype-clipped float32 numpy multiplication.  (A vector
operand with at most four channels, and every array operand, go to the
OpenCV path instead; see the counterexample.) -/
theorem multiply_float32_numpy_cases (F : FloatOps) (img : Buffer) (v : Value) (ip : Bool)
    (hdt : img.dtype = .float32)
    (hv : (∃ q, convert_value v (get_num_channels img) = .scalar q) ∨
      (∃ l, convert_value v (get_num_channels img) = .vec l ∧
        get_num_channels img > MAX_OPENCV_WORKING_CHANNELS)) :
    multiply_backend img v = .numpy ∧
      multiply F img v ip
        = clip (apply_numpy F img (convert_value v (get_num_channels img)) .multiply)
            .float32 := by
  rcases hv with ⟨q, hq⟩ | ⟨l, hl, hc⟩
  · constructor
    · unfold multiply_backend
      rw [hq]
      rw [hdt]
      rfl
    · unfold multiply
      rw [hq]
      show multiply_by_constant F img q ip = _
      unfold multiply_by_constant multiply_numpy
      rw [hdt]
      rw [if_neg (by decide : ¬ (Dtype.float32 = Dtype.uint8))]
      rw [if_pos (rfl : Dtype.float32 = Dtype.float32)]
      unfold clippedWrap
      rw [apply_numpy_dtype]
      rw [if_neg (by decide : ¬ (Dtype.float32 = Dtype.uint8))]
  · constructor
    · unfold multiply_backend
      rw [hl, hdt]
      simp only [if_pos hc]
      rfl
    · unfold multiply
      rw [hl]
      show multiply_by_vector F img l (get_num_channels img) ip = _
      unfold multiply_by_vector multiply_numpy
      rw [hdt]
      rw [if_neg (by decide : ¬ (Dtype.float32 = Dtype.uint8))]
      rw [if_pos hc]
      unfold clippedWrap
      rw [apply_numpy_dtype]
      rw [if_neg (by decide : ¬ (Dtype.float32 = Dtype.uint8))]

/-- Witness for C8 at concrete inputs: a float32 image with a scalar
operand, and a five-channel float32 image with a five-entry vector
operand, both dispatch to the numpy path. -/
theorem multiply_float32_numpy_cases_witness :
    (multiply_backend ⟨.float32, [1, 1, 2], [[0, 0]]⟩ (.scalar 3) = .numpy ∧
      multiply exactOps ⟨.float32, [1, 1, 2], [[0, 0]]⟩ (.scalar 3) false
        = clip (apply_numpy exactOps ⟨.float32, [1, 1, 2], [[0, 0]]⟩
            (convert_value (.scalar 3) 2) .multiply) .float32) ∧
    multiply_backend ⟨.float32, [1, 1, 5], [[0, 0, 0, 0, 0]]⟩ (.vec [1, 2, 3, 4, 5])
      = .numpy := by
  constructor
  · exact multiply_float32_numpy_cases exactOps _ (.scalar 3) false rfl (Or.inl ⟨3, rfl⟩)
  · exact (multiply_float32_numpy_cases exactOps ⟨.float32, [1, 1, 5], [[0, 0, 0, 0, 0]]⟩
      (.vec [1, 2, 3, 4, 5]) false rfl
      (Or.inr ⟨[1, 2, 3, 4, 5], by decide, by decide⟩)).1

/-- C8 counterexample.  A float32 image with three channels and a
per-channel vector operand dispatches to the OpenCV path, not the numpy
path: the claim that float32 images always use the vectorized float32 path
is false. -/
theorem multiply_float32_vector_uses_opencv :
    multiply_backend ⟨.float32, [1, 1, 3], [[0, 0, 0]]⟩ (.vec [1, 2, 3]) = .opencv ∧
      multiply_backend ⟨.float32, [1, 1, 3], [[0, 0, 0]]⟩ (.vec [1, 2, 3]) ≠ .numpy := by
  constructor
  · rfl
  · intro h
    have h2 : Backend.opencv = Backend.numpy := by
      rw [← h]
      rfl
    exact absurd h2 (by decide)

/-- add_numpy from functions.py. -/
def add_numpy (F : FloatOps) (img : Buffer) (value : Value) : Buffer :=
  apply_numpy F img value .add

/-- add_lut from functions.py. -/
def add_lut (F : FloatOps) (img : Buffer) (value : Value) (inplace : Bool) : Buffer :=
  apply_lut F img value .add inplace

/-- add_constant from functions.py (with its clipped decorator). -/
def add_constant (F : FloatOps) (img : Buffer) (q : ℚ) (inplace : Bool) : Buffer :=
  clippedWrap img.dtype (add_opencv F img (.scalar q) inplace)

/-- add_vector from functions.py (with its clipped decorator). -/
def add_vector (F : FloatOps) (img : Buffer) (l : List ℚ) (inplace : Bool) : Buffer :=
  clippedWrap img.dtype
    (if img.dtype = .uint8 then add_lut F img (.vec l) inplace
     else add_opencv F img (.vec l) inplace)

/-- add_array from functions.py (with its clipped decorator). -/
def add_array (F : FloatOps) (img : Buffer) (a : List (List ℚ)) (inplace : Bool) : Buffer :=
  clippedWrap img.dtype (add_opencv F img (.arr a) inplace)

/-- add from functions.py: canonicalize the operand; a scalar 0 returns the
input buffer itself, untouched, before any backend is invoked; a uint8
image truncates the scalar to int; then dispatch on the operand kind. -/
def add (F : FloatOps) (img : Buffer) (value : Value) (inplace : Bool) : Buffer :=
  match convert_value value (get_num_channels img) with
  | .scalar q =>
      if q = 0 then img
      else add_constant F img (if img.dtype = .uint8 then ((truncQ q : ℤ) : ℚ) else q) inplace
  | .vec l => add_vector F img l inplace
  | .arr a => add_array F img a inplace

/-- C5.  add with the scalar operand 0 returns the input buffer unchanged,
for every dtype and every inplace flag: the zero test short-circuits before
any arithmetic backend or copy is reached.  (Object identity of the python
buffer is modelled as equality of the returned buffer with the input.) -/
theorem add_zero_is_identity (F : FloatOps) (img : Buffer) (ip : Bool) :
    add F img (.scalar 0) ip = img := by
  unfold add convert_value
  norm_num

/- ----------------------------------------------------------------
add_weighted (weighted sum) and claim C6.
---------------------------------------------------------------- -/

/-- The typed failures of functions.py / utils.py (section 7 of the spec). -/
inductive Err where
  | shapeMismatch
deriving DecidableEq

/-- add_weighted_simsimd from functions.py: a second operand of a different
dtype is first astype-cast and then clipped to the first operand dtype; the
fused wsum of the vector-math runtime computes w1 * x + w2 * y saturated
into the common dtype, elementwise over the flattened buffers, reshaped
back. -/
def add_weighted_simsimd (img1 : Buffer) (w1 : ℚ) (img2 : Buffer) (w2 : ℚ) : Buffer :=
  let img2b := if img2.dtype ≠ img1.dtype then
      clip ⟨img1.dtype, img2.shape, img2.pix.map (List.map (castValue img1.dtype))⟩ img1.dtype
    else img2
  ⟨img1.dtype, img1.shape, (List.range img1.pix.length).map (fun r =>
    (List.range ((img1.pix.getD r []).length)).map (fun i =>
      castValue img1.dtype (clampQ 0 (MAX_VALUES_BY_DTYPE img1.dtype)
        (w1 * ((img1.pix.getD r []).getD i 0) + w2 * ((img2b.pix.getD r []).getD i 0)))))⟩

/-- add_weighted from functions.py (with its clipped decorator): raises the
shape-mismatch error exactly when the two buffers differ in shape, and
otherwise returns the simsimd weighted sum. -/
def add_weighted (img1 : Buffer) (w1 : ℚ) (img2 : Buffer) (w2 : ℚ) : Except Err Buffer :=
  if img1.shape ≠ img2.shape then .error .shapeMismatch
  else .ok (clippedWrap img1.dtype (add_weighted_simsimd img1 w1 img2 w2))

/-- C6.  add_weighted fails with the shape-mismatch error exactly when the
two input buffers have unequal shapes; on equal shapes it never raises that
error and returns a result. -/
theorem add_weighted_shape_check (img1 : Buffer) (w1 : ℚ) (img2 : Buffer) (w2 : ℚ) :
    (img1.shape ≠ img2.shape → add_weighted img1 w1 img2 w2 = .error .shapeMismatch) ∧
      (img1.shape = img2.shape → ∃ r, add_weighted img1 w1 img2 w2 = .ok r) := by
  constructor
  · intro h
    unfold add_weighted
    rw [if_pos h]
  · intro h
    unfold add_weighted
    rw [if_neg (fun hc => hc h)]
    exact ⟨_, rfl⟩

/-- Witness for C6 at concrete inputs: buffers of shapes (1,1,1) and
(2,1,1) raise the shape-mismatch error; two buffers of shape (1,1,1)
produce a result. -/
theorem add_weighted_shape_check_witness :
    add_weighted ⟨.uint8, [1, 1, 1], [[1]]⟩ 1 ⟨.uint8, [2, 1, 1], [[1], [1]]⟩ 0
        = .error .shapeMismatch ∧
      ∃ r, add_weighted ⟨.uint8, [1, 1, 1], [[1]]⟩ 1 ⟨.uint8, [1, 1, 1], [[2]]⟩ 0 = .ok r := by
  constructor
  · exact (add_weighted_shape_check ⟨.uint8, [1, 1, 1], [[1]]⟩ 1
      ⟨.uint8, [2, 1, 1], [[1], [1]]⟩ 0).1 (by decide)
  · exact (add_weighted_shape_check ⟨.uint8, [1, 1, 1], [[1]]⟩ 1
      ⟨.uint8, [1, 1, 1], [[2]]⟩ 0).2 rfl

/- ----------------------------------------------------------------
normalize (mean/denominator affine normalization) and claim C9.
---------------------------------------------------------------- -/

/-- The per-channel value of a canonicalized scalar-or-vector operand
(array operands are indexed at the first pixel; the claims about normalize
only cover scalar and per-channel operands). -/
def operandAt (v : Value) (i : ℕ) : ℚ :=
  match v with
  | .scalar q => q
  | .vec l => l.getD i 0
  | .arr a => (a.getD 0 []).getD i 0

/-- normalize_numpy from functions.py: the float32 image (the dispatcher
only sends float32 images here, for which the astype is the identity) gets
mean subtracted and is multiplied by the denominator, in float32. -/
def normalize_numpy (F : FloatOps) (img : Buffer) (mean denominator : Value) : Buffer :=
  ⟨.float32, img.shape, img.pix.map (fun row =>
    (List.range row.length).map (fun i =>
      F.fmul (F.fsub (row.getD i 0) (operandAt mean i)) (operandAt denominator i)))⟩

/-- normalize_lut from functions.py: a 256-entry float32 table of
(index - mean) * denominator per channel (one shared table when both
operands are scalars), applied through cv2.LUT. -/
def normalize_lut (F : FloatOps) (img : Buffer) (mean denominator : Value) : Buffer :=
  match mean, denominator with
  | .scalar m, .scalar d =>
      ⟨.float32, img.shape, img.pix.map (List.map (lutGet
        ((arangeQ (maxNat img.dtype + 1)).map (fun p => F.fmul (F.fsub p m) d))))⟩
  | m, d =>
      ⟨.float32, img.shape, img.pix.map (fun row =>
        (List.range (get_num_channels img)).map (fun i =>
          lutGet ((arangeQ (maxNat img.dtype + 1)).map
            (fun p => F.fmul (F.fsub p (operandAt m i)) (operandAt d i)))
            (row.getD i 0)))⟩

/-- normalize_opencv from functions.py: the image is cast to float32, the
broadcast mean image is subtracted (cv2.subtract) and the result multiplied
by the broadcast denominator image (cv2.multiply, CV_32F). -/
def normalize_opencv (F : FloatOps) (img : Buffer) (mean denominator : Value) : Buffer :=
  ⟨.float32, img.shape, img.pix.map (fun row =>
    (List.range row.length).map (fun i =>
      F.fmul (F.fsub (castValue .float32 (row.getD i 0)) (operandAt mean i))
        (operandAt denominator i)))⟩

/-- normalize from functions.py: canonicalize denominator and mean, then
dispatch on dtype: uint8 to the LUT backend, float32 to the numpy backend,
anything else to the OpenCV backend. -/
def normalize (F : FloatOps) (img : Buffer) (mean denominator : Value) : Buffer :=
  let d2 := convert_value denominator (get_num_channels img)
  let m2 := convert_value mean (get_num_channels img)
  if img.dtype = .uint8 then normalize_lut F img m2 d2
  else if img.dtype = .float32 then normalize_numpy F img m2 d2
  else normalize_opencv F img m2 d2

/-- The formula claimed for C9, stated from the spec words: every backend
computes (img - mean) * denominator — the third argument is multiplicative,
never a divisor — and the result is always float32. -/
def normalizeSpec (F : FloatOps) (img : Buffer) (mean denominator : Value) : Buffer :=
  let d2 := convert_value denominator (get_num_channels img)
  let m2 := convert_value mean (get_num_channels img)
  ⟨.float32, img.shape, img.pix.map (fun row =>
    (List.range row.length).map (fun i =>
      F.fmul (F.fsub (row.getD i 0) (operandAt m2 i)) (operandAt d2 i)))⟩

/-- A map over a list rewritten as an index-driven map over List.range. -/
theorem list_map_eq_range_getD (g : ℚ → ℚ) (row : List ℚ) :
    row.map g = (List.range row.length).map (fun i => g (row.getD i 0)) := by
  apply List.ext_getElem
  · simp
  · intro i h1 h2
    simp only [List.getElem_map, List.getElem_range]
    rw [List.getD_eq_getElem row 0 (by simpa using h1)]

/-- C9.  normalize computes (img - mean) * denominator on every backend —
uint8 LUT, float32 numpy, other-dtype OpenCV — with the denominator used as
a multiplicative factor (never a divisor), and the result is always
float32.  Hypotheses: canonicalized operands are scalar or per-channel
(the forms the backends support); uint8 images hold integer pixel values in
range with well-formed rows; pixels of the remaining dtypes are exactly
representable in float32 (their astype to float32 is then the identity). -/
theorem normalize_is_affine_multiply (F : FloatOps) (img : Buffer)
    (mean denominator : Value)
    (hmean : (∃ q, convert_value mean (get_num_channels img) = .scalar q) ∨
      (∃ l, convert_value mean (get_num_channels img) = .vec l))
    (hden : (∃ q, convert_value denominator (get_num_channels img) = .scalar q) ∨
      (∃ l, convert_value denominator (get_num_channels img) = .vec l))
    (hlen : ∀ row ∈ img.pix, row.length = get_num_channels img)
    (hu8 : img.dtype = .uint8 →
      ∀ row ∈ img.pix, ∀ x ∈ row, ∃ n : ℕ, x = ((n:ℕ):ℚ) ∧ n ≤ 255)
    (hrep : img.dtype ≠ .uint8 → img.dtype ≠ .float32 →
      ∀ row ∈ img.pix, ∀ x ∈ row, castValue .float32 x = x) :
    normalize F img mean denominator = normalizeSpec F img mean denominator := by
  unfold normalize normalizeSpec
  by_cases h8 : img.dtype = .uint8
  · rw [if_pos h8]
    have hval := hu8 h8
    -- every lut-branch table lookup at an in-range integer equals the formula
    have hcore : ∀ (m d : ℚ) (n : ℕ), n ≤ 255 →
        lutGet ((arangeQ (maxNat img.dtype + 1)).map
          (fun p => F.fmul (F.fsub p m) d)) ((n:ℕ):ℚ)
          = F.fmul (F.fsub ((n:ℕ):ℚ) m) d := by
      intro m d n hn
      rw [h8, show maxNat .uint8 + 1 = 256 from rfl]
      exact lutGet_arange_map _ (by omega)
    rcases hmean with ⟨qm, hqm⟩ | ⟨lm, hlm⟩ <;> rcases hden with ⟨qd, hqd⟩ | ⟨ld, hld⟩
    · -- scalar mean, scalar denominator: the single shared table
      rw [hqm, hqd]
      show (⟨.float32, img.shape, img.pix.map (List.map (lutGet
        ((arangeQ (maxNat img.dtype + 1)).map
          (fun p => F.fmul (F.fsub p qm) qd))))⟩ : Buffer) = _
      apply congrArg (Buffer.mk .float32 img.shape)
      apply List.map_congr_left
      intro row hrow
      rw [list_map_eq_range_getD]
      apply List.map_congr_left
      intro i hi
      have hix : i < row.length := List.mem_range.mp hi
      obtain ⟨n, hxn, hn⟩ := hval row hrow (row.getD i 0) (list_getD_mem row i hix)
      rw [hxn, hcore qm qd n hn]
      rfl
    · rw [hqm, hld]
      show (⟨.float32, img.shape, img.pix.map (fun row =>
        (List.range (get_num_channels img)).map (fun i =>
          lutGet ((arangeQ (maxNat img.dtype + 1)).map
            (fun p => F.fmul (F.fsub p (operandAt (.scalar qm) i))
              (operandAt (.vec ld) i))) (row.getD i 0)))⟩ : Buffer) = _
      apply congrArg (Buffer.mk .float32 img.shape)
      apply List.map_congr_left
      intro row hrow
      rw [hlen row hrow]
      apply List.map_congr_left
      intro i hi
      have hix : i < row.length := by
        rw [hlen row hrow]
        exact List.mem_range.mp hi
      obtain ⟨n, hxn, hn⟩ := hval row hrow (row.getD i 0) (list_getD_mem row i hix)
      rw [hxn, hcore _ _ n hn]
    · rw [hlm, hqd]
      show (⟨.float32, img.shape, img.pix.map (fun row =>
        (List.range (get_num_channels img)).map (fun i =>
          lutGet ((arangeQ (maxNat img.dtype + 1)).map
            (fun p => F.fmul (F.fsub p (operandAt (.vec lm) i))
              (operandAt (.scalar qd) i))) (row.getD i 0)))⟩ : Buffer) = _
      apply congrArg (Buffer.mk .float32 img.shape)
      apply List.map_congr_left
      intro row hrow
      rw [hlen row hrow]
      apply List.map_congr_left
      intro i hi
      have hix : i < row.length := by
        rw [hlen row hrow]
        exact List.mem_range.mp hi
      obtain ⟨n, hxn, hn⟩ := hval row hrow (row.getD i 0) (list_getD_mem row i hix)
      rw [hxn, hcore _ _ n hn]
    · rw [hlm, hld]
      show (⟨.float32, img.shape, img.pix.map (fun row =>
        (List.range (get_num_channels img)).map (fun i =>
          lutGet ((arangeQ (maxNat img.dtype + 1)).map
            (fun p => F.fmul (F.fsub p (operandAt (.vec lm) i))
              (operandAt (.vec ld) i))) (row.getD i 0)))⟩ : Buffer) = _
      apply congrArg (Buffer.mk .float32 img.shape)
      apply List.map_congr_left
      intro row hrow
      rw [hlen row hrow]
      apply List.map_congr_left
      intro i hi
      have hix : i < row.length := by
        rw [hlen row hrow]
        exact List.mem_range.mp hi
      obtain ⟨n, hxn, hn⟩ := hval row hrow (row.getD i 0) (list_getD_mem row i hix)
      rw [hxn, hcore _ _ n hn]
  · rw [if_neg h8]
    by_cases h32 : img.dtype = .float32
    · rw [if_pos h32]
      rfl
    · rw [if_neg h32]
      unfold normalize_opencv
      apply congrArg (Buffer.mk .float32 img.shape)
      apply List.map_congr_left
      intro row hrow
      apply List.map_congr_left
      intro i hi
      have hix : i < row.length := List.mem_range.mp hi
      rw [hrep h8 h32 row hrow (row.getD i 0) (list_getD_mem row i hix)]

/-- Witness for C9 at a concrete input: a one-pixel uint8 image of value 3
normalized with scalar mean 1 and scalar denominator 2. -/
theorem normalize_is_affine_multiply_witness :
    normalize exactOps ⟨.uint8, [1, 1, 1], [[3]]⟩ (.scalar 1) (.scalar 2)
      = normalizeSpec exactOps ⟨.uint8, [1, 1, 1], [[3]]⟩ (.scalar 1) (.scalar 2) := by
  apply normalize_is_affine_multiply exactOps ⟨.uint8, [1, 1, 1], [[3]]⟩ (.scalar 1) (.scalar 2)
  · exact Or.inl ⟨1, rfl⟩
  · exact Or.inl ⟨2, rfl⟩
  · intro row hrow
    simp only [List.mem_singleton] at hrow
    subst hrow
    simp [get_num_channels]
  · intro _ row hrow x hx
    simp only [List.mem_singleton] at hrow
    subst hrow
    simp only [List.mem_singleton] at hx
    subst hx
    exact ⟨3, by norm_num, by norm_num⟩
  · intro h1 _
    exact absurd rfl h1

/- ----------------------------------------------------------------
normalize_per_image (statistics normalization) and claim C4.
Only output-range facts are claimed here, so the backend arithmetic is
modelled exactly over the rationals, with the float square root of the
standard deviation kept abstract (a parameter sq); every claimed bound
holds for every interpretation of sq.
---------------------------------------------------------------- -/

/-- NormalizationType from utils.py. -/
inductive NormalizationKind where
  | image
  | image_per_channel
  | min_max
  | min_max_per_channel
deriving DecidableEq

/-- The stabilization constant added to every denominator. -/
def eps : ℚ := 1/10000

/-- DBL_EPSILON, the guard cv2.normalize uses before inverting the range. -/
def DBL_EPSILON : ℚ := (2:ℚ) ^ (-(52:ℤ))

/-- np.min over a nonempty list (0 on the empty list). -/
def listMin : List ℚ → ℚ
  | [] => 0
  | x :: xs => xs.foldl min x

/-- np.max over a nonempty list (0 on the empty list). -/
def listMax : List ℚ → ℚ
  | [] => 0
  | x :: xs => xs.foldl max x

/-- np.mean. -/
def meanQ (l : List ℚ) : ℚ := l.sum / l.length

/-- The variance (np.std squared); its square root is taken by the abstract
sq parameter. -/
def varQ (l : List ℚ) : ℚ := meanQ (l.map (fun x => (x - meanQ l) ^ 2))

/-- The values of channel i across all pixels (statistics pool over every
axis except the channel axis). -/
def channelVals (img : Buffer) (i : ℕ) : List ℚ := img.pix.map (fun row => row.getD i 0)

/-- normalize_per_image_numpy from functions.py: the four normalization
kinds, computed with numpy statistics and clipped to [-20, 20]
(mean/std kinds) or [0, 1] (min-max kinds). -/
def normalize_per_image_numpy (sq : ℚ → ℚ) (img : Buffer) (norm : NormalizationKind) :
    Buffer :=
  match norm with
  | .image =>
      ⟨.float32, img.shape, img.pix.map (List.map (fun x =>
        clampQ (-20) 20 ((x - meanQ img.pix.flatten)
          / (sq (varQ img.pix.flatten) + eps))))⟩
  | .image_per_channel =>
      ⟨.float32, img.shape, img.pix.map (fun row => (List.range row.length).map (fun i =>
        clampQ (-20) 20 ((row.getD i 0 - meanQ (channelVals img i))
          / (sq (varQ (channelVals img i)) + eps))))⟩
  | .min_max =>
      ⟨.float32, img.shape, img.pix.map (List.map (fun x =>
        clampQ 0 1 ((x - listMin img.pix.flatten)
          / (listMax img.pix.flatten - listMin img.pix.flatten + eps))))⟩
  | .min_max_per_channel =>
      ⟨.float32, img.shape, img.pix.map (fun row => (List.range row.length).map (fun i =>
        clampQ 0 1 ((row.getD i 0 - listMin (channelVals img i))
          / (listMax (channelVals img i) - listMin (channelVals img i) + eps))))⟩

/-- cv2.normalize with NORM_MINMAX onto [alpha, beta] = [0, 1] (external
collaborator): scale by the inverse range when the range exceeds
DBL_EPSILON, otherwise by 0. -/
def cv2NormalizeMinMax (img : Buffer) (x : ℚ) : ℚ :=
  (x - listMin img.pix.flatten) *
    (if listMax img.pix.flatten - listMin img.pix.flatten > DBL_EPSILON then
      (listMax img.pix.flatten - listMin img.pix.flatten)⁻¹ else 0)

/-- normalize_per_image_opencv from functions.py: single-channel inputs
degrade the per-channel kinds to their global counterparts; mean/std kinds
clamp to [-20, 20]; the global min-max kind is cv2.normalize; the
per-channel min-max kind divides by (range + eps) and clamps to [-20, 20].
The ndim>3 and channels>4 sub-branches of the source compute the same
values and coincide in the exact model. -/
def normalize_per_image_opencv (sq : ℚ → ℚ) (img : Buffer) (norm : NormalizationKind) :
    Buffer :=
  match (if get_num_channels img = 1 ∧ norm = .image_per_channel then NormalizationKind.image
    else if get_num_channels img = 1 ∧ norm = .min_max_per_channel then NormalizationKind.min_max
    else norm) with
  | .image =>
      ⟨.float32, img.shape, img.pix.map (List.map (fun x =>
        clampQ (-20) 20 ((x - meanQ img.pix.flatten)
          / (sq (varQ img.pix.flatten) + eps))))⟩
  | .image_per_channel =>
      ⟨.float32, img.shape, img.pix.map (fun row => (List.range row.length).map (fun i =>
        clampQ (-20) 20 ((row.getD i 0 - meanQ (channelVals img i))
          / (sq (varQ (channelVals img i)) + eps))))⟩
  | .min_max =>
      ⟨.float32, img.shape, img.pix.map (List.map (cv2NormalizeMinMax img))⟩
  | .min_max_per_channel =>
      ⟨.float32, img.shape, img.pix.map (fun row => (List.range row.length).map (fun i =>
        clampQ (-20) 20 ((row.getD i 0 - listMin (channelVals img i))
          / (listMax (channelVals img i) - listMin (channelVals img i) + eps))))⟩

/-- normalize_per_image_lut from functions.py: 256-entry tables of the
normalized values, pre-clipped to the output range, applied through
cv2.LUT; single-channel inputs degrade the per-channel kinds. -/
def normalize_per_image_lut (sq : ℚ → ℚ) (img : Buffer) (norm : NormalizationKind) :
    Buffer :=
  if norm = .image ∨ (get_num_channels img = 1 ∧ norm = .image_per_channel) then
    ⟨.float32, img.shape, img.pix.map (List.map (lutGet
      ((arangeQ (maxNat img.dtype + 1)).map (fun p =>
        clampQ (-20) 20 ((p - meanQ img.pix.flatten)
          / (sq (varQ img.pix.flatten) + eps))))))⟩
  else if norm = .image_per_channel then
    ⟨.float32, img.shape, img.pix.map (fun row =>
      (List.range (get_num_channels img)).map (fun i =>
        lutGet ((arangeQ (maxNat img.dtype + 1)).map (fun p =>
          clampQ (-20) 20 ((p - meanQ (channelVals img i))
            / (sq (varQ (channelVals img i)) + eps)))) (row.getD i 0)))⟩
  else if norm = .min_max ∨ (get_num_channels img = 1 ∧ norm = .min_max_per_channel) then
    ⟨.float32, img.shape, img.pix.map (List.map (lutGet
      ((arangeQ (maxNat img.dtype + 1)).map (fun p =>
        clampQ 0 1 ((p - listMin img.pix.flatten)
          / (listMax img.pix.flatten - listMin img.pix.flatten + eps))))))⟩
  else
    ⟨.float32, img.shape, img.pix.map (fun row =>
      (List.range (get_num_channels img)).map (fun i =>
        lutGet ((arangeQ (maxNat img.dtype + 1)).map (fun p =>
          clampQ 0 1 ((p - listMin (channelVals img i))
            / (listMax (channelVals img i) - listMin (channelVals img i) + eps))))
          (row.getD i 0)))⟩

/-- normalize_per_image from functions.py: uint8 images use OpenCV for
min_max and the LUT backend otherwise; float32 images use numpy for the
global mean/std kind and OpenCV otherwise; any other dtype uses numpy for
batches/volumes (rank above 3) and OpenCV otherwise. -/
def normalize_per_image (sq : ℚ → ℚ) (img : Buffer) (norm : NormalizationKind) : Buffer :=
  if img.dtype = .uint8 then
    if norm = .min_max then normalize_per_image_opencv sq img norm
    else normalize_per_image_lut sq img norm
  else if img.dtype = .float32 then
    if norm = .image then normalize_per_image_numpy sq img norm
    else normalize_per_image_opencv sq img norm
  else
    if img.shape.length > 3 then normalize_per_image_numpy sq img norm
    else normalize_per_image_opencv sq img norm

/-- The output range each normalization kind guarantees. -/
def normBounds (norm : NormalizationKind) : ℚ × ℚ :=
  match norm with
  | .image => (-20, 20)
  | .image_per_channel => (-20, 20)
  | .min_max => (0, 1)
  | .min_max_per_channel => (0, 1)

theorem foldl_min_le (xs : List ℚ) (a : ℚ) :
    xs.foldl min a ≤ a ∧ ∀ x ∈ xs, xs.foldl min a ≤ x := by
  induction xs generalizing a with
  | nil => exact ⟨le_rfl, by intro x hx; cases hx⟩
  | cons y ys ih =>
      obtain ⟨h1, h2⟩ := ih (min a y)
      refine ⟨le_trans h1 (min_le_left a y), ?_⟩
      intro x hx
      rcases List.mem_cons.mp hx with rfl | hx2
      · exact le_trans h1 (min_le_right a x)
      · exact h2 x hx2

theorem le_foldl_max (xs : List ℚ) (a : ℚ) :
    a ≤ xs.foldl max a ∧ ∀ x ∈ xs, x ≤ xs.foldl max a := by
  induction xs generalizing a with
  | nil => exact ⟨le_rfl, by intro x hx; cases hx⟩
  | cons y ys ih =>
      obtain ⟨h1, h2⟩ := ih (max a y)
      refine ⟨le_trans (le_max_left a y) h1, ?_⟩
      intro x hx
      rcases List.mem_cons.mp hx with rfl | hx2
      · exact le_trans (le_max_right a x) h1
      · exact h2 x hx2

theorem listMin_le_mem (l : List ℚ) (x : ℚ) (h : x ∈ l) : listMin l ≤ x := by
  cases l with
  | nil => cases h
  | cons y ys =>
      unfold listMin
      rcases List.mem_cons.mp h with rfl | hx
      · exact (foldl_min_le ys x).1
      · exact (foldl_min_le ys y).2 x hx

theorem le_listMax_mem (l : List ℚ) (x : ℚ) (h : x ∈ l) : x ≤ listMax l := by
  cases l with
  | nil => cases h
  | cons y ys =>
      unfold listMax
      rcases List.mem_cons.mp h with rfl | hx
      · exact (le_foldl_max ys x).1
      · exact (le_foldl_max ys y).2 x hx

/-- A lookup in a table whose entries all lie in [lo, hi] (with 0 inside
the interval, covering the out-of-range default) lies in [lo, hi]. -/
theorem lutGet_bounds (lo hi : ℚ) (T : List ℚ) (x : ℚ)
    (h0l : lo ≤ 0) (h0r : (0:ℚ) ≤ hi) (hT : ∀ y ∈ T, lo ≤ y ∧ y ≤ hi) :
    lo ≤ lutGet T x ∧ lutGet T x ≤ hi := by
  unfold lutGet
  rcases lt_or_le (truncQ x).toNat T.length with h | h
  · exact hT _ (list_getD_mem T _ h)
  · rw [List.getD_eq_default T 0 h]
    exact ⟨h0l, h0r⟩

/-- (x - mn) / (mx - mn + eps) lies in [0, 1] whenever mn ≤ x ≤ mx. -/
theorem minmax_eps_div_mem (mn mx x : ℚ) (h1 : mn ≤ x) (h2 : x ≤ mx) :
    0 ≤ (x - mn) / (mx - mn + eps) ∧ (x - mn) / (mx - mn + eps) ≤ 1 := by
  have hd : (0:ℚ) < mx - mn + eps := by
    unfold eps
    nlinarith
  constructor
  · apply div_nonneg (by linarith) (le_of_lt hd)
  · rw [div_le_one hd]
    unfold eps
    nlinarith

theorem clampQ_id_of_mem (lo hi v : ℚ) (h1 : lo ≤ v) (h2 : v ≤ hi) :
    clampQ lo hi v = v := by
  unfold clampQ
  rw [min_eq_right h2, max_eq_right h1]

theorem cv2NormalizeMinMax_mem (img : Buffer) (x : ℚ) (hx : x ∈ img.pix.flatten) :
    0 ≤ cv2NormalizeMinMax img x ∧ cv2NormalizeMinMax img x ≤ 1 := by
  unfold cv2NormalizeMinMax
  have hmn : listMin img.pix.flatten ≤ x := listMin_le_mem _ x hx
  have hmx : x ≤ listMax img.pix.flatten := le_listMax_mem _ x hx
  split_ifs with h
  · have hpos : (0:ℚ) < listMax img.pix.flatten - listMin img.pix.flatten := by
      have hde : (0:ℚ) < DBL_EPSILON := by
        unfold DBL_EPSILON
        positivity
      linarith
    constructor
    · apply mul_nonneg (by linarith)
      positivity
    · rw [← div_eq_mul_inv, div_le_one hpos]
      linarith
  · simp

/-- Output bounds of the numpy backend: every branch ends in the
corresponding clamp. -/
theorem normalize_per_image_numpy_bounds (sq : ℚ → ℚ) (img : Buffer)
    (norm : NormalizationKind) :
    ∀ row ∈ (normalize_per_image_numpy sq img norm).pix, ∀ x ∈ row,
      (normBounds norm).1 ≤ x ∧ x ≤ (normBounds norm).2 := by
  intro row hrow x hx
  cases norm with
  | image =>
      simp only [normalize_per_image_numpy, List.mem_map] at hrow
      obtain ⟨orow, _, horow⟩ := hrow
      rw [← horow] at hx
      simp only [List.mem_map] at hx
      obtain ⟨y, _, hy⟩ := hx
      rw [← hy]
      exact clampQ_mem (-20) 20 _ (by norm_num)
  | image_per_channel =>
      simp only [normalize_per_image_numpy, List.mem_map] at hrow
      obtain ⟨orow, _, horow⟩ := hrow
      rw [← horow] at hx
      simp only [List.mem_map] at hx
      obtain ⟨y, _, hy⟩ := hx
      rw [← hy]
      exact clampQ_mem (-20) 20 _ (by norm_num)
  | min_max =>
      simp only [normalize_per_image_numpy, List.mem_map] at hrow
      obtain ⟨orow, _, horow⟩ := hrow
      rw [← horow] at hx
      simp only [List.mem_map] at hx
      obtain ⟨y, _, hy⟩ := hx
      rw [← hy]
      exact clampQ_mem 0 1 _ (by norm_num)
  | min_max_per_channel =>
      simp only [normalize_per_image_numpy, List.mem_map] at hrow
      obtain ⟨orow, _, horow⟩ := hrow
      rw [← horow] at hx
      simp only [List.mem_map] at hx
      obtain ⟨y, _, hy⟩ := hx
      rw [← hy]
      exact clampQ_mem 0 1 _ (by norm_num)

/-- Output bounds of the LUT backend: every table entry is pre-clipped to
the corresponding range, and out-of-range lookups default to 0, inside
both ranges. -/
theorem normalize_per_image_lut_bounds (sq : ℚ → ℚ) (img : Buffer)
    (norm : NormalizationKind) :
    ∀ row ∈ (normalize_per_image_lut sq img norm).pix, ∀ x ∈ row,
      (normBounds norm).1 ≤ x ∧ x ≤ (normBounds norm).2 := by
  intro row hrow x hx
  unfold normalize_per_image_lut at hrow
  split_ifs at hrow with hb1 hb2 hb3
  · have hbn : normBounds norm = (-20, 20) := by
      rcases hb1 with rfl | ⟨_, rfl⟩ <;> rfl
    rw [hbn]
    simp only [List.mem_map] at hrow
    obtain ⟨orow, _, horow⟩ := hrow
    rw [← horow] at hx
    simp only [List.mem_map] at hx
    obtain ⟨y, _, hy⟩ := hx
    rw [← hy]
    apply lutGet_bounds (-20) 20 _ _ (by norm_num) (by norm_num)
    intro z hz
    simp only [List.mem_map] at hz
    obtain ⟨p, _, hp⟩ := hz
    rw [← hp]
    exact clampQ_mem (-20) 20 _ (by norm_num)
  · rw [hb2]
    simp only [List.mem_map] at hrow
    obtain ⟨orow, _, horow⟩ := hrow
    rw [← horow] at hx
    simp only [List.mem_map] at hx
    obtain ⟨i, _, hy⟩ := hx
    rw [← hy]
    apply lutGet_bounds (-20) 20 _ _ (by norm_num) (by norm_num)
    intro z hz
    simp only [List.mem_map] at hz
    obtain ⟨p, _, hp⟩ := hz
    rw [← hp]
    exact clampQ_mem (-20) 20 _ (by norm_num)
  · have hbn : normBounds norm = (0, 1) := by
      rcases hb3 with rfl | ⟨_, rfl⟩ <;> rfl
    rw [hbn]
    simp only [List.mem_map] at hrow
    obtain ⟨orow, _, horow⟩ := hrow
    rw [← horow] at hx
    simp only [List.mem_map] at hx
    obtain ⟨y, _, hy⟩ := hx
    rw [← hy]
    apply lutGet_bounds 0 1 _ _ (by norm_num) (by norm_num)
    intro z hz
    simp only [List.mem_map] at hz
    obtain ⟨p, _, hp⟩ := hz
    rw [← hp]
    exact clampQ_mem 0 1 _ (by norm_num)
  · have hbn : normBounds norm = (0, 1) := by
      cases norm
      · exact absurd (Or.inl rfl) hb1
      · exact absurd rfl hb2
      · exact absurd (Or.inl rfl) hb3
      · rfl
    rw [hbn]
    simp only [List.mem_map] at hrow
    obtain ⟨orow, _, horow⟩ := hrow
    rw [← horow] at hx
    simp only [List.mem_map] at hx
    obtain ⟨i, _, hy⟩ := hx
    rw [← hy]
    apply lutGet_bounds 0 1 _ _ (by norm_num) (by norm_num)
    intro z hz
    simp only [List.mem_map] at hz
    obtain ⟨p, _, hp⟩ := hz
    rw [← hp]
    exact clampQ_mem 0 1 _ (by norm_num)

/-- The OpenCV backend on the global mean/std kind. -/
theorem npi_opencv_image (sq : ℚ → ℚ) (img : Buffer) :
    normalize_per_image_opencv sq img .image
      = ⟨.float32, img.shape, img.pix.map (List.map (fun x =>
          clampQ (-20) 20 ((x - meanQ img.pix.flatten)
            / (sq (varQ img.pix.flatten) + eps))))⟩ := by
  unfold normalize_per_image_opencv
  rw [if_neg (fun hc => absurd hc.2 (by decide)), if_neg (fun hc => absurd hc.2 (by decide))]

/-- The OpenCV backend on the global min-max kind. -/
theorem npi_opencv_min_max (sq : ℚ → ℚ) (img : Buffer) :
    normalize_per_image_opencv sq img .min_max
      = ⟨.float32, img.shape, img.pix.map (List.map (cv2NormalizeMinMax img))⟩ := by
  unfold normalize_per_image_opencv
  rw [if_neg (fun hc => absurd hc.2 (by decide)), if_neg (fun hc => absurd hc.2 (by decide))]

/-- The OpenCV backend on the per-channel mean/std kind with several
channels. -/
theorem npi_opencv_ipc (sq : ℚ → ℚ) (img : Buffer) (hC : get_num_channels img ≠ 1) :
    normalize_per_image_opencv sq img .image_per_channel
      = ⟨.float32, img.shape, img.pix.map (fun row => (List.range row.length).map (fun i =>
          clampQ (-20) 20 ((row.getD i 0 - meanQ (channelVals img i))
            / (sq (varQ (channelVals img i)) + eps))))⟩ := by
  unfold normalize_per_image_opencv
  rw [if_neg (fun hc => hC hc.1), if_neg (fun hc => absurd hc.2 (by decide))]

/-- The OpenCV backend degrades the per-channel mean/std kind to the global
one on single-channel images. -/
theorem npi_opencv_ipc_one (sq : ℚ → ℚ) (img : Buffer) (hC : get_num_channels img = 1) :
    normalize_per_image_opencv sq img .image_per_channel
      = normalize_per_image_opencv sq img .image := by
  rw [npi_opencv_image]
  unfold normalize_per_image_opencv
  rw [if_pos ⟨hC, rfl⟩]

/-- The OpenCV backend on the per-channel min-max kind with several
channels. -/
theorem npi_opencv_mmpc (sq : ℚ → ℚ) (img : Buffer) (hC : get_num_channels img ≠ 1) :
    normalize_per_image_opencv sq img .min_max_per_channel
      = ⟨.float32, img.shape, img.pix.map (fun row => (List.range row.length).map (fun i =>
          clampQ (-20) 20 ((row.getD i 0 - listMin (channelVals img i))
            / (listMax (channelVals img i) - listMin (channelVals img i) + eps))))⟩ := by
  unfold normalize_per_image_opencv
  rw [if_neg (fun hc => absurd hc.2 (by decide)), if_neg (fun hc => hC hc.1)]

/-- The OpenCV backend degrades the per-channel min-max kind to the global
one on single-channel images. -/
theorem npi_opencv_mmpc_one (sq : ℚ → ℚ) (img : Buffer) (hC : get_num_channels img = 1) :
    normalize_per_image_opencv sq img .min_max_per_channel
      = normalize_per_image_opencv sq img .min_max := by
  rw [npi_opencv_min_max]
  unfold normalize_per_image_opencv
  rw [if_neg (fun hc => absurd hc.2 (by decide)), if_pos ⟨hC, rfl⟩]

/-- Output bounds of the OpenCV backend.  The min-max kinds stay within
[0, 1] without relying on their final clamp: the global kind scales by the
guarded inverse range, and the per-channel kind divides the per-channel
offset by its range plus the positive epsilon. -/
theorem normalize_per_image_opencv_bounds (sq : ℚ → ℚ) (img : Buffer)
    (norm : NormalizationKind) :
    ∀ row ∈ (normalize_per_image_opencv sq img norm).pix, ∀ x ∈ row,
      (normBounds norm).1 ≤ x ∧ x ≤ (normBounds norm).2 := by
  have himage : ∀ row ∈ (normalize_per_image_opencv sq img .image).pix, ∀ x ∈ row,
      (-20:ℚ) ≤ x ∧ x ≤ 20 := by
    rw [npi_opencv_image]
    intro row hrow x hx
    simp only [List.mem_map] at hrow
    obtain ⟨orow, _, horow⟩ := hrow
    rw [← horow] at hx
    simp only [List.mem_map] at hx
    obtain ⟨y, _, hy⟩ := hx
    rw [← hy]
    exact clampQ_mem (-20) 20 _ (by norm_num)
  have hminmax : ∀ row ∈ (normalize_per_image_opencv sq img .min_max).pix, ∀ x ∈ row,
      (0:ℚ) ≤ x ∧ x ≤ 1 := by
    rw [npi_opencv_min_max]
    intro row hrow x hx
    simp only [List.mem_map] at hrow
    obtain ⟨orow, hmem, horow⟩ := hrow
    rw [← horow] at hx
    simp only [List.mem_map] at hx
    obtain ⟨y, hymem, hy⟩ := hx
    rw [← hy]
    exact cv2NormalizeMinMax_mem img y (List.mem_flatten.mpr ⟨orow, hmem, hymem⟩)
  intro row hrow x hx
  cases norm with
  | image => exact himage row hrow x hx
  | min_max => exact hminmax row hrow x hx
  | image_per_channel =>
      by_cases hC : get_num_channels img = 1
      · rw [npi_opencv_ipc_one sq img hC] at hrow
        exact himage row hrow x hx
      · rw [npi_opencv_ipc sq img hC] at hrow
        simp only [List.mem_map] at hrow
        obtain ⟨orow, _, horow⟩ := hrow
        rw [← horow] at hx
        simp only [List.mem_map] at hx
        obtain ⟨i, _, hy⟩ := hx
        rw [← hy]
        exact clampQ_mem (-20) 20 _ (by norm_num)
  | min_max_per_channel =>
      by_cases hC : get_num_channels img = 1
      · rw [npi_opencv_mmpc_one sq img hC] at hrow
        exact hminmax row hrow x hx
      · rw [npi_opencv_mmpc sq img hC] at hrow
        simp only [List.mem_map] at hrow
        obtain ⟨orow, hmem, horow⟩ := hrow
        rw [← horow] at hx
        simp only [List.mem_map] at hx
        obtain ⟨i, _, hy⟩ := hx
        rw [← hy]
        have hdivmem := minmax_eps_div_mem (listMin (channelVals img i))
          (listMax (channelVals img i)) (orow.getD i 0)
          (listMin_le_mem _ _ (List.mem_map.mpr ⟨orow, hmem, rfl⟩))
          (le_listMax_mem _ _ (List.mem_map.mpr ⟨orow, hmem, rfl⟩))
        rw [clampQ_id_of_mem (-20) 20 _ (by linarith [hdivmem.1]) (by linarith [hdivmem.2])]
        exact hdivmem

/-- C4.  For every input buffer and every normalization kind,
normalize_per_image keeps every output element within [-20, 20] for the
mean/std kinds and within [0, 1] for the min-max kinds, on every backend
the dispatcher can select (LUT, numpy, OpenCV — including the per-channel
min-max OpenCV path, whose bound comes from the epsilon-stabilized
division, not from its clamp), and for every interpretation of the float
square root. -/
theorem normalize_per_image_output_bounds (sq : ℚ → ℚ) (img : Buffer)
    (norm : NormalizationKind) :
    ∀ row ∈ (normalize_per_image sq img norm).pix, ∀ x ∈ row,
      (normBounds norm).1 ≤ x ∧ x ≤ (normBounds norm).2 := by
  unfold normalize_per_image
  split_ifs with h1 h2 h3 h4 h5
  · exact normalize_per_image_opencv_bounds sq img norm
  · exact normalize_per_image_lut_bounds sq img norm
  · exact normalize_per_image_numpy_bounds sq img norm
  · exact normalize_per_image_opencv_bounds sq img norm
  · exact normalize_per_image_numpy_bounds sq img norm
  · exact normalize_per_image_opencv_bounds sq img norm

/-- Witness for C4 at the concrete scenario of the spec: a one-channel
all-zero float32 buffer normalized with the global mean/std kind — the
output value 0 lies within [-20, 20]. -/
theorem normalize_per_image_output_bounds_witness :
    (normalize_per_image id ⟨.float32, [1, 1, 1], [[0]]⟩ .image).pix = [[(0:ℚ)]] ∧
      (normBounds .image).1 ≤ 0 ∧ (0:ℚ) ≤ (normBounds .image).2 := by
  have hpix : (normalize_per_image id ⟨.float32, [1, 1, 1], [[0]]⟩ .image).pix
      = [[(0:ℚ)]] := by
    show (normalize_per_image_numpy id ⟨.float32, [1, 1, 1], [[0]]⟩ .image).pix = _
    unfold normalize_per_image_numpy
    simp only [List.map_cons, List.map_nil]
    norm_num [meanQ, varQ, clampQ, eps]
  refine ⟨hpix, ?_⟩
  have h := normalize_per_image_output_bounds id ⟨.float32, [1, 1, 1], [[0]]⟩ .image
    [(0:ℚ)] (by rw [hpix]; exact List.mem_singleton.mpr rfl) 0
    (List.mem_singleton.mpr rfl)
  exact h

/- ----------------------------------------------------------------
Horizontal flip (hflip / hflip_cv2 / _flip_multichannel) and claim C10.
The data model carries the channel axis explicitly (rank-3 HWC buffers,
spec section 3): data is the H-list of W-lists of C-channel pixels.
---------------------------------------------------------------- -/

/-- A rank-3 (H, W, C) buffer for the flip primitives. -/
structure Img3 where
  dtype : Dtype
  H : ℕ
  W : ℕ
  C : ℕ
  data : List (List (List ℚ))
deriving DecidableEq

/-- cv2.flip with flip_code 1 (external collaborator): reverse the
horizontal (W) axis. -/
def cv2FlipH (data : List (List (List ℚ))) : List (List (List ℚ)) :=
  data.map List.reverse

/-- The chunk start offsets of range(0, num_channels, chunk_size). -/
def chunkStarts (C step : ℕ) : List ℕ :=
  (List.range ((C + step - 1) / step)).map (fun j => j * step)

/-- _flip_multichannel from functions.py: at most 512 channels flip
directly; otherwise the image is split into 512-channel chunks, each chunk
is flipped, a collapsed 1-channel chunk is re-expanded (a metadata no-op
in this model), and the chunks are concatenated back along the channel
axis. -/
def flip_multichannel (img : Img3) : Img3 :=
  if img.C ≤ 512 then { img with data := cv2FlipH img.data }
  else { img with data := img.data.map (fun row => row.reverse.map (fun px =>
    ((chunkStarts img.C 512).map (fun s => (px.drop s).take 512)).flatten)) }

/-- hflip_cv2 from functions.py: route through the chunked path when the
channel count exceeds OpenCV's 512-channel limit. -/
def hflip_cv2 (img : Img3) : Img3 :=
  if img.C > 512 then flip_multichannel img
  else { img with data := cv2FlipH img.data }

/-- hflip from functions.py. -/
def hflip (img : Img3) : Img3 := hflip_cv2 img

/-- Concatenating the take/drop chunks of a list recovers it. -/
theorem chunks_flatten (step : ℕ) (k : ℕ) (px : List ℚ) (h : px.length ≤ k * step) :
    ((List.range k).map (fun j => (px.drop (j * step)).take step)).flatten = px := by
  induction k generalizing px with
  | zero =>
      simp only [List.range_zero, List.map_nil, List.flatten_nil]
      symm
      rw [← List.length_eq_zero]
      omega
  | succ k ih =>
      rw [List.range_succ_eq_map, List.map_cons, List.map_map, List.flatten_cons]
      have htail : ((fun j => (px.drop (j * step)).take step) ∘ Nat.succ)
          = fun j => (((px.drop step).drop (j * step)).take step) := by
        funext j
        simp only [Function.comp_apply]
        rw [List.drop_drop]
        congr 2
        simp [Nat.succ_eq_add_one]
        ring
      rw [show (px.drop (0 * step)).take step = px.take step by norm_num]
      have hlen : (px.drop step).length ≤ k * step := by
        rw [List.length_drop]
        have hk : px.length ≤ (k + 1) * step := h
        have : (k + 1) * step = k * step + step := by ring
        omega
      calc px.take step ++ (List.map ((fun j => (px.drop (j * step)).take step) ∘ Nat.succ)
            (List.range k)).flatten
          = px.take step ++ (List.map (fun j => (((px.drop step).drop (j * step)).take step))
            (List.range k)).flatten := by
              rw [htail]
        _ = px.take step ++ px.drop step := by rw [ih (px.drop step) hlen]
        _ = px := List.take_append_drop step px

/-- On well-formed data the chunked flip equals the direct flip. -/
theorem flip_multichannel_eq_flip (img : Img3)
    (hwf : ∀ row ∈ img.data, ∀ px ∈ row, px.length = img.C) :
    flip_multichannel img = { img with data := cv2FlipH img.data } := by
  unfold flip_multichannel
  split_ifs with h
  · rfl
  · have hdata : img.data.map (fun row => row.reverse.map (fun px =>
        ((chunkStarts img.C 512).map (fun s => (px.drop s).take 512)).flatten))
        = cv2FlipH img.data := by
      unfold cv2FlipH
      apply List.map_congr_left
      intro row hrow
      have hid : ∀ px ∈ row.reverse, ((chunkStarts img.C 512).map
          (fun s => (px.drop s).take 512)).flatten = px := by
        intro px hpx
        have hpxlen : px.length = img.C := hwf row hrow px (List.mem_reverse.mp hpx)
        unfold chunkStarts
        rw [List.map_map]
        have hcomp : ((fun s => (px.drop s).take 512) ∘ fun j => j * 512)
            = fun j => (px.drop (j * 512)).take 512 := rfl
        rw [hcomp]
        apply chunks_flatten 512 ((img.C + 512 - 1) / 512) px
        rw [hpxlen]
        omega
      calc row.reverse.map (fun px =>
            ((chunkStarts img.C 512).map (fun s => (px.drop s).take 512)).flatten)
          = row.reverse.map id := List.map_congr_left hid
        _ = row.reverse := List.map_id row.reverse
    rw [hdata]

/-- On well-formed data hflip is exactly the horizontal reversal, on both
the direct and the chunked route. -/
theorem hflip_eq_reverse (img : Img3)
    (hwf : ∀ row ∈ img.data, ∀ px ∈ row, px.length = img.C) :
    hflip img = { img with data := cv2FlipH img.data } := by
  unfold hflip hflip_cv2
  split_ifs with h
  · exact flip_multichannel_eq_flip img hwf
  · rfl

/-- C10.  hflip is an involution — including on buffers with more than 512
channels, which take the chunked route — and a single hflip preserves the
buffer's dtype and its shape (its data is the per-row reversal of the
input data, so every length is preserved). -/
theorem hflip_involution (img : Img3)
    (hwf : ∀ row ∈ img.data, ∀ px ∈ row, px.length = img.C) :
    hflip (hflip img) = img ∧
      (hflip img).dtype = img.dtype ∧
      (hflip img).data = img.data.map List.reverse ∧
      (hflip img).data.length = img.data.length := by
  have h1 : hflip img = { img with data := cv2FlipH img.data } := hflip_eq_reverse img hwf
  have hwf2 : ∀ row ∈ (hflip img).data, ∀ px ∈ row, px.length = (hflip img).C := by
    rw [h1]
    intro row hrow px hpx
    unfold cv2FlipH at hrow
    simp only [List.mem_map] at hrow
    obtain ⟨orow, horow, hrev⟩ := hrow
    rw [← hrev] at hpx
    exact hwf orow horow px (List.mem_reverse.mp hpx)
  have h2 : hflip (hflip img) = { hflip img with data := cv2FlipH (hflip img).data } :=
    hflip_eq_reverse (hflip img) hwf2
  refine ⟨?_, ?_, ?_, ?_⟩
  · rw [h2, h1]
    unfold cv2FlipH
    cases img with
    | mk d hh ww cc data =>
        simp only [List.map_map]
        congr 1
        calc data.map (List.reverse ∘ List.reverse)
            = data.map id := by
              apply List.map_congr_left
              intro row _
              exact List.reverse_reverse row
          _ = data := List.map_id data
  · rw [h1]
  · rw [h1]
    rfl
  · rw [h1]
    unfold cv2FlipH
    simp

/-- Witness for C10 at a concrete 600-channel one-pixel image, exercising
the chunked route. -/
theorem arangeQ_length (m : ℕ) : (arangeQ m).length = m := by
  unfold arangeQ
  rw [List.length_map, List.length_range]

theorem hflip_involution_witness :
    hflip (hflip ⟨.uint8, 1, 1, 600, [[arangeQ 600]]⟩)
      = ⟨.uint8, 1, 1, 600, [[arangeQ 600]]⟩ :=
  (hflip_involution ⟨.uint8, 1, 1, 600, [[arangeQ 600]]⟩
    (by
      intro row hrow px hpx
      rw [List.mem_singleton] at hrow
      subst hrow
      rw [List.mem_singleton] at hpx
      rw [hpx]
      exact arangeQ_length 600)).1

/- ----------------------------------------------------------------
to_float / from_float (TypeConverter) and claim C3.  These functions
depend on the actual float rounding, modelled exactly by roundFl
(binary32 for p = 23, binary64 for p = 52, binary16 for p = 10).
---------------------------------------------------------------- -/

/-- to_float from functions.py, with max_value taken from the dtype table
(the max_value argument defaults to None in every use the claim covers):
float64 narrows to float32; float32 passes through; uint8 goes through the
256-entry table of arange/255 computed in float32; the remaining dtypes
divide by max_value in numpy (float64 arithmetic, float16 for float16
inputs) and then cast to float32. -/
def to_float (img : Buffer) : Buffer :=
  if img.dtype = .float64 then
    ⟨.float32, img.shape, img.pix.map (List.map (roundFl 23))⟩
  else if img.dtype = .float32 then img
  else if img.dtype = .uint8 then
    ⟨.float32, img.shape, img.pix.map (List.map (lutGet
      ((arangeQ 256).map (fun i => roundFl 23 (i / 255)))))⟩
  else
    ⟨.float32, img.shape, img.pix.map (List.map (fun x =>
      roundFl 23 (roundFl (if img.dtype = .float16 then 10 else 52)
        (x / MAX_VALUES_BY_DTYPE img.dtype))))⟩

/-- from_float from functions.py: target float32 passes through; target
float64 narrows to float32; a float32 source multiplies by the float32
value of the target max (from_float_opencv; the more-than-four-channel
branch computes the same values through an explicit multiplier array),
rounds to nearest with np.rint and clip-casts; any other source runs the
same computation in float64 (from_float_numpy). -/
def from_float (img : Buffer) (target : Dtype) : Buffer :=
  if target = .float32 then img
  else if target = .float64 then
    ⟨.float32, img.shape, img.pix.map (List.map (roundFl 23))⟩
  else if img.dtype = .float32 then
    ⟨target, img.shape, img.pix.map (List.map (fun x =>
      clipScalar .float32 target
        ((rintQ (roundFl 23 (x * roundFl 23 (MAX_VALUES_BY_DTYPE target))) : ℤ) : ℚ)))⟩
  else
    ⟨target, img.shape, img.pix.map (List.map (fun x =>
      clipScalar .float64 target
        ((rintQ (roundFl 52 (x * MAX_VALUES_BY_DTYPE target)) : ℤ) : ℚ)))⟩

/-- The C3 round trip: to_float then from_float back into the original
dtype (max_value defaulted from the dtype in both directions). -/
def float_round_trip (img : Buffer) : Buffer := from_float (to_float img) img.dtype

/-- The binary exponent is determined by any bracketing, with no need to
evaluate the defining logarithms. -/
theorem Elog_eq_of_between (q : ℚ) (l : ℤ) (h0 : 0 < q)
    (h1 : (2:ℚ) ^ l ≤ q) (h2 : q < (2:ℚ) ^ (l + 1)) : Elog q = l := by
  obtain ⟨ha, hb⟩ := Elog_spec q h0
  by_contra hne
  rcases lt_or_gt_of_ne hne with hlt | hgt
  · have hle : Elog q + 1 ≤ l := by omega
    have h3 : (2:ℚ) ^ (Elog q + 1) ≤ (2:ℚ) ^ l := zpow_le_zpow_right₀ (by norm_num) hle
    linarith
  · have hle : l + 1 ≤ Elog q := by omega
    have h3 : (2:ℚ) ^ (l + 1) ≤ (2:ℚ) ^ (Elog q) := zpow_le_zpow_right₀ (by norm_num) hle
    linarith

/-- Evaluation shape of roundFl at a positive input. -/
theorem roundFl_eval (p : ℕ) (q : ℚ) (l n : ℤ) (h0 : 0 < q)
    (hl : Elog q = l) (hr : rintQ (q * 2 ^ ((p:ℤ) - l)) = n) :
    roundFl p q = (n : ℚ) * 2 ^ (l - (p:ℤ)) := by
  unfold roundFl
  rw [if_neg (not_le.mpr h0), hl, hr]

/-- clipScalar at an argument whose clamp against the source-dtype bound is
an in-range integer. -/
theorem clipScalar_int_eval (src d : Dtype) (hf : isFloat d = false) (q : ℚ) (m : ℤ)
    (h1 : clampQ 0 (clipBound src d) q = (m:ℚ)) (h0 : 0 ≤ m)
    (h2 : (m:ℚ) ≤ MAX_VALUES_BY_DTYPE d) :
    clipScalar src d q = (m:ℚ) := by
  unfold clipScalar
  rw [h1]
  exact castValue_int_id d hf m h0 h2

/-- Core recovery bound: if y approximates n / M to relative error 2 ^ -22
(covering both the single float32 rounding of the uint8 table and the
float64-then-float32 double rounding of the general path), then multiplying
by M in float32 and rounding to nearest recovers n exactly, for any
M up to 65535. -/
theorem rintQ_roundFl_recovers (M n : ℕ) (hM1 : 1 ≤ M) (hM2 : (M:ℚ) ≤ 65535)
    (hn1 : 1 ≤ n) (hn : n ≤ M) (y : ℚ)
    (hy : |y - (n:ℚ)/(M:ℚ)| ≤ ((n:ℚ)/(M:ℚ)) / 2 ^ 22) :
    rintQ (roundFl 23 (y * (M:ℚ))) = (n:ℤ) := by
  have hMpos : (0:ℚ) < (M:ℚ) := by exact_mod_cast hM1
  have hnpos : (0:ℚ) < (n:ℚ) := by exact_mod_cast hn1
  have hnM : ((n:ℚ)/(M:ℚ)) * (M:ℚ) = (n:ℚ) := div_mul_cancel₀ _ (ne_of_gt hMpos)
  have hn65535 : (n:ℚ) ≤ 65535 := by
    have : (n:ℚ) ≤ (M:ℚ) := by exact_mod_cast hn
    linarith
  -- bound |y * M - n|
  have hw : |y * (M:ℚ) - (n:ℚ)| ≤ (n:ℚ) / 2 ^ 22 := by
    have h1 : y * (M:ℚ) - (n:ℚ) = (y - (n:ℚ)/(M:ℚ)) * (M:ℚ) := by
      rw [sub_mul, hnM]
    rw [h1, abs_mul, abs_of_pos hMpos]
    calc |y - (n:ℚ)/(M:ℚ)| * (M:ℚ) ≤ (((n:ℚ)/(M:ℚ)) / 2 ^ 22) * (M:ℚ) :=
          mul_le_mul_of_nonneg_right hy (le_of_lt hMpos)
      _ = (n:ℚ) / 2 ^ 22 := by
          rw [div_mul_eq_mul_div, hnM]
  rw [abs_le] at hw
  have hwpos : (0:ℚ) < y * (M:ℚ) := by
    have : (n:ℚ) - (n:ℚ) / 2 ^ 22 ≤ y * (M:ℚ) := by linarith
    nlinarith
  have herr := roundFl_err 23 (y * (M:ℚ)) hwpos
  rw [abs_le] at herr
  apply rintQ_eq_of_near
  rw [abs_lt]
  have hub : y * (M:ℚ) ≤ (n:ℚ) + (n:ℚ) / 2 ^ 22 := by linarith
  constructor
  · have := herr.1
    push_cast
    nlinarith
  · have := herr.2
    push_cast
    nlinarith

/-- One uint8 value through the round trip: table division by 255 in
float32, float32 multiplication by 255, np.rint, clip-cast — identity. -/
theorem round_trip_val_u8 (n : ℕ) (hn : n ≤ 255) :
    clipScalar .float32 .uint8
      ((rintQ (roundFl 23 ((lutGet ((arangeQ 256).map (fun i => roundFl 23 (i / 255)))
        ((n:ℕ):ℚ)) * roundFl 23 (MAX_VALUES_BY_DTYPE .uint8))) : ℤ) : ℚ) = ((n:ℕ):ℚ) := by
  have hmax : MAX_VALUES_BY_DTYPE .uint8 = ((255:ℕ):ℚ) := by
    norm_num [MAX_VALUES_BY_DTYPE]
  have hmf : roundFl 23 (((255:ℕ):ℚ)) = ((255:ℕ):ℚ) := roundFl_natCast 23 255 (by norm_num)
  have hlut : lutGet ((arangeQ 256).map (fun i => roundFl 23 (i / 255))) ((n:ℕ):ℚ)
      = roundFl 23 (((n:ℕ):ℚ) / 255) := lutGet_arange_map _ (by omega)
  rw [hmax, hmf, hlut]
  rcases Nat.eq_zero_or_pos n with rfl | hn1
  · have h0a : (((0:ℕ):ℚ)) / 255 = 0 := by norm_num
    rw [h0a, roundFl_zero]
    have h0b : (0:ℚ) * (((255:ℕ)):ℚ) = 0 := by norm_num
    rw [h0b, roundFl_zero]
    have h0c : rintQ (0:ℚ) = 0 := by
      have h := rintQ_intCast 0
      norm_num at h
      exact h
    rw [h0c]
    norm_num
    rw [clipScalar_zero]
  · have hnq : (0:ℚ) < ((n:ℕ):ℚ) := by exact_mod_cast hn1
    have hx : (0:ℚ) < ((n:ℕ):ℚ)/255 := by positivity
    have herr := roundFl_err 23 (((n:ℕ):ℚ)/255) hx
    have herr2 : |roundFl 23 (((n:ℕ):ℚ)/255) - ((n:ℕ):ℚ)/((255:ℕ):ℚ)|
        ≤ (((n:ℕ):ℚ)/((255:ℕ):ℚ)) / 2 ^ 22 := by
      rw [show (((255:ℕ):ℚ)) = (255:ℚ) by norm_num]
      refine le_trans herr ?_
      have hq : (0:ℚ) ≤ ((n:ℕ):ℚ)/255 := le_of_lt hx
      norm_num
      linarith
    have hres := rintQ_roundFl_recovers 255 n (by norm_num) (by norm_num) hn1 hn _ herr2
    rw [hres]
    have hcl : clipScalar .float32 .uint8 (((n:ℤ):ℚ)) = (((n:ℤ)):ℚ) := by
      apply clipScalar_int_eval .float32 .uint8 rfl _ (n:ℤ)
      · rw [clipBound_uint8]
        apply clampQ_id_of_mem
        · positivity
        · exact_mod_cast hn
      · exact Int.natCast_nonneg n
      · rw [hmax]
        exact_mod_cast hn
    rw [hcl]
    push_cast
    ring

/-- One uint16 value through the round trip: float64 division by 65535,
float32 narrowing, float32 multiplication by 65535, np.rint, clip-cast —
identity. -/
theorem round_trip_val_u16 (n : ℕ) (hn : n ≤ 65535) :
    clipScalar .float32 .uint16
      ((rintQ (roundFl 23 ((roundFl 23 (roundFl 52 (((n:ℕ):ℚ)
        / MAX_VALUES_BY_DTYPE .uint16))) * roundFl 23 (MAX_VALUES_BY_DTYPE .uint16)))
        : ℤ) : ℚ) = ((n:ℕ):ℚ) := by
  have hmax : MAX_VALUES_BY_DTYPE .uint16 = ((65535:ℕ):ℚ) := by
    norm_num [MAX_VALUES_BY_DTYPE]
  have hmf : roundFl 23 (((65535:ℕ):ℚ)) = ((65535:ℕ):ℚ) :=
    roundFl_natCast 23 65535 (by norm_num)
  rw [hmax, hmf]
  rcases Nat.eq_zero_or_pos n with rfl | hn1
  · have h0a : (((0:ℕ):ℚ)) / ((65535:ℕ):ℚ) = 0 := by norm_num
    rw [h0a, roundFl_zero, roundFl_zero]
    have h0b : (0:ℚ) * (((65535:ℕ)):ℚ) = 0 := by norm_num
    rw [h0b, roundFl_zero]
    have h0c : rintQ (0:ℚ) = 0 := by
      have h := rintQ_intCast 0
      norm_num at h
      exact h
    rw [h0c]
    norm_num
    rw [clipScalar_zero]
  · have hnq : (0:ℚ) < ((n:ℕ):ℚ) := by exact_mod_cast hn1
    have hx : (0:ℚ) < ((n:ℕ):ℚ)/((65535:ℕ):ℚ) := by positivity
    have h64 := roundFl_err 52 (((n:ℕ):ℚ)/((65535:ℕ):ℚ)) hx
    rw [abs_le] at h64
    have hy52pos : (0:ℚ) < roundFl 52 (((n:ℕ):ℚ)/((65535:ℕ):ℚ)) := by
      have hq := hx
      have h1 := h64.1
      nlinarith
    have h32 := roundFl_err 23 (roundFl 52 (((n:ℕ):ℚ)/((65535:ℕ):ℚ))) hy52pos
    rw [abs_le] at h32
    have herr2 : |roundFl 23 (roundFl 52 (((n:ℕ):ℚ)/((65535:ℕ):ℚ)))
        - ((n:ℕ):ℚ)/((65535:ℕ):ℚ)| ≤ (((n:ℕ):ℚ)/((65535:ℕ):ℚ)) / 2 ^ 22 := by
      rw [abs_le]
      constructor
      · have h1 := h32.1
        have h2 := h64.1
        have h3 := h64.2
        nlinarith
      · have h1 := h32.2
        have h2 := h64.1
        have h3 := h64.2
        nlinarith
    have hres := rintQ_roundFl_recovers 65535 n (by norm_num) (by norm_num) hn1 hn _ herr2
    rw [hres]
    have hcl : clipScalar .float32 .uint16 (((n:ℤ):ℚ)) = (((n:ℤ)):ℚ) := by
      apply clipScalar_int_eval .float32 .uint16 rfl _ (n:ℤ)
      · rw [clipBound_f32_uint16]
        apply clampQ_id_of_mem
        · positivity
        · exact_mod_cast hn
      · exact Int.natCast_nonneg n
      · rw [hmax]
        exact_mod_cast hn
    rw [hcl]
    push_cast
    ring

/-- C3 (amended).  For uint8 and uint16 buffers of in-range integer pixel
values, to_float followed by from_float into the original dtype reproduces
the buffer exactly (so in particular within 1 unit).  uint32 is excluded:
float32 cannot resolve single units near 2^32 (see the counterexample). -/
theorem to_from_float_round_trip_u8_u16 (img : Buffer)
    (hdt : img.dtype = .uint8 ∨ img.dtype = .uint16)
    (hval : ∀ row ∈ img.pix, ∀ x ∈ row, ∃ n : ℕ, x = ((n:ℕ):ℚ) ∧ n ≤ maxNat img.dtype) :
    (float_round_trip img).dtype = img.dtype ∧ (float_round_trip img).pix = img.pix := by
  obtain ⟨bd, bs, bp⟩ := img
  rcases hdt with hdt | hdt
  · change bd = Dtype.uint8 at hdt
    subst hdt
    refine ⟨rfl, ?_⟩
    show ((bp.map (List.map (lutGet ((arangeQ 256).map (fun i => roundFl 23 (i / 255)))))).map
      (List.map (fun x => clipScalar .float32 .uint8
        ((rintQ (roundFl 23 (x * roundFl 23 (MAX_VALUES_BY_DTYPE .uint8))) : ℤ) : ℚ)))) = bp
    rw [List.map_map]
    have hid : ∀ row ∈ bp, (List.map (fun x => clipScalar .float32 .uint8
        ((rintQ (roundFl 23 (x * roundFl 23 (MAX_VALUES_BY_DTYPE .uint8))) : ℤ) : ℚ))
        ∘ List.map (lutGet ((arangeQ 256).map (fun i => roundFl 23 (i / 255))))) row
        = row := by
      intro row hrow
      simp only [Function.comp_apply, List.map_map]
      have hrowid : ∀ x ∈ row, ((fun x => clipScalar .float32 .uint8
          ((rintQ (roundFl 23 (x * roundFl 23 (MAX_VALUES_BY_DTYPE .uint8))) : ℤ) : ℚ))
          ∘ lutGet ((arangeQ 256).map (fun i => roundFl 23 (i / 255)))) x = x := by
        intro x hx
        obtain ⟨n, rfl, hn⟩ := hval row hrow x hx
        exact round_trip_val_u8 n hn
      calc row.map _ = row.map id := List.map_congr_left hrowid
        _ = row := List.map_id row
    calc bp.map _ = bp.map id := List.map_congr_left hid
      _ = bp := List.map_id bp
  · change bd = Dtype.uint16 at hdt
    subst hdt
    refine ⟨rfl, ?_⟩
    show ((bp.map (List.map (fun x => roundFl 23 (roundFl 52
        (x / MAX_VALUES_BY_DTYPE .uint16))))).map
      (List.map (fun x => clipScalar .float32 .uint16
        ((rintQ (roundFl 23 (x * roundFl 23 (MAX_VALUES_BY_DTYPE .uint16))) : ℤ) : ℚ)))) = bp
    rw [List.map_map]
    have hid : ∀ row ∈ bp, (List.map (fun x => clipScalar .float32 .uint16
        ((rintQ (roundFl 23 (x * roundFl 23 (MAX_VALUES_BY_DTYPE .uint16))) : ℤ) : ℚ))
        ∘ List.map (fun x => roundFl 23 (roundFl 52 (x / MAX_VALUES_BY_DTYPE .uint16)))) row
        = row := by
      intro row hrow
      simp only [Function.comp_apply, List.map_map]
      have hrowid : ∀ x ∈ row, ((fun x => clipScalar .float32 .uint16
          ((rintQ (roundFl 23 (x * roundFl 23 (MAX_VALUES_BY_DTYPE .uint16))) : ℤ) : ℚ))
          ∘ (fun x => roundFl 23 (roundFl 52 (x / MAX_VALUES_BY_DTYPE .uint16)))) x = x := by
        intro x hx
        obtain ⟨n, rfl, hn⟩ := hval row hrow x hx
        exact round_trip_val_u16 n hn
      calc row.map _ = row.map id := List.map_congr_left hrowid
        _ = row := List.map_id row
    calc bp.map _ = bp.map id := List.map_congr_left hid
      _ = bp := List.map_id bp

/-- Witness for C3 at a concrete input: the uint8 buffer [[5], [200]]
round-trips to itself. -/
theorem to_from_float_round_trip_witness :
    (float_round_trip ⟨.uint8, [2, 1, 1], [[5], [200]]⟩).pix = [[(5:ℚ)], [200]] := by
  have h := to_from_float_round_trip_u8_u16 ⟨.uint8, [2, 1, 1], [[5], [200]]⟩
    (Or.inl rfl)
    (by
      intro row hrow x hx
      simp only [List.mem_cons, List.not_mem_nil, or_false] at hrow
      rcases hrow with rfl | rfl
      · simp only [List.mem_singleton] at hx
        subst hx
        exact ⟨5, by norm_num, by norm_num [maxNat]⟩
      · simp only [List.mem_singleton] at hx
        subst hx
        exact ⟨200, by norm_num, by norm_num [maxNat]⟩)
  exact h.2

/-- C3 counterexample.  For uint32 the round trip loses far more than one
unit: the pixel value 4294966295 comes back as 4294966272 (difference 23),
because float32 has 256-unit granularity near 2 ^ 32.  Every rounding step
below is the exact IEEE round-to-nearest-even computation. -/
theorem from_to_float_uint32_breaks_unit_bound :
    (float_round_trip ⟨.uint32, [1, 1, 1], [[4294966295]]⟩).pix = [[(4294966272:ℚ)]] ∧
      ¬ (|(4294966272:ℚ) - 4294966295| ≤ 1) := by
  have hq1pos : (0:ℚ) < (4294966295:ℚ) / 4294967295 := by norm_num
  have hE1 : Elog ((4294966295:ℚ) / 4294967295) = -1 := by
    apply Elog_eq_of_between _ _ hq1pos
    · norm_num
    · norm_num
  have h2 : rintQ (((4294966295:ℚ) / 4294967295) * 2 ^ (((52:ℕ):ℤ) - (-1)))
      = 9007197157588992 := by
    apply rintQ_eq_of_near
    rw [abs_lt]
    constructor
    · norm_num
    · norm_num
  have h3 : roundFl 52 ((4294966295:ℚ) / 4294967295) = 536870787 / 536870912 := by
    rw [roundFl_eval 52 _ (-1) 9007197157588992 hq1pos hE1 h2]
    norm_num
  have hy52pos : (0:ℚ) < (536870787:ℚ) / 536870912 := by norm_num
  have h4 : Elog ((536870787:ℚ) / 536870912) = -1 := by
    apply Elog_eq_of_between _ _ hy52pos
    · norm_num
    · norm_num
  have h5 : rintQ (((536870787:ℚ) / 536870912) * 2 ^ (((23:ℕ):ℤ) - (-1)))
      = 16777212 := by
    apply rintQ_eq_of_near
    rw [abs_lt]
    constructor
    · norm_num
    · norm_num
  have h6 : roundFl 23 ((536870787:ℚ) / 536870912) = 4194303 / 4194304 := by
    rw [roundFl_eval 23 _ (-1) 16777212 hy52pos h4 h5]
    norm_num
  have hMpos : (0:ℚ) < 4294967295 := by norm_num
  have h7 : Elog ((4294967295:ℚ)) = 31 := by
    apply Elog_eq_of_between _ _ hMpos
    · norm_num
    · norm_num
  have h8 : rintQ ((4294967295:ℚ) * 2 ^ (((23:ℕ):ℤ) - 31)) = 16777216 := by
    apply rintQ_eq_of_near
    rw [abs_lt]
    constructor
    · norm_num
    · norm_num
  have h9 : roundFl 23 ((4294967295:ℚ)) = 4294967296 := by
    rw [roundFl_eval 23 _ 31 16777216 hMpos h7 h8]
    norm_num
  have h10 : ((4194303:ℚ) / 4194304) * 4294967296 = 4294966272 := by norm_num
  have hWpos : (0:ℚ) < 4294966272 := by norm_num
  have h11 : Elog ((4294966272:ℚ)) = 31 := by
    apply Elog_eq_of_between _ _ hWpos
    · norm_num
    · norm_num
  have h12 : rintQ ((4294966272:ℚ) * 2 ^ (((23:ℕ):ℤ) - 31)) = 16777212 := by
    apply rintQ_eq_of_near
    rw [abs_lt]
    constructor
    · norm_num
    · norm_num
  have h13 : roundFl 23 ((4294966272:ℚ)) = 4294966272 := by
    rw [roundFl_eval 23 _ 31 16777212 hWpos h11 h12]
    norm_num
  have h14 : rintQ ((4294966272:ℚ)) = 4294966272 := by
    have h := rintQ_intCast 4294966272
    rw [show (((4294966272:ℤ)):ℚ) = (4294966272:ℚ) by norm_num] at h
    exact h
  have h15 : clipScalar .float32 .uint32 (((4294966272:ℤ)):ℚ) = (4294966272:ℚ) := by
    have hb : clipBound .float32 .uint32 = 4294967296 := by
      unfold clipBound
      rw [if_pos (show isFloat .float32 = true from rfl),
        show precOf .float32 = 23 from rfl,
        show MAX_VALUES_BY_DTYPE .uint32 = (4294967295:ℚ) from rfl]
      exact h9
    have h := clipScalar_int_eval .float32 .uint32 rfl (((4294966272:ℤ)):ℚ) 4294966272
      (by
        rw [hb, show (((4294966272:ℤ)):ℚ) = (4294966272:ℚ) by norm_num]
        apply clampQ_id_of_mem <;> norm_num)
      (by norm_num)
      (by rw [show MAX_VALUES_BY_DTYPE .uint32 = (4294967295:ℚ) from rfl]; norm_num)
    rw [show (((4294966272:ℤ)):ℚ) = (4294966272:ℚ) by norm_num] at h
    exact h
  constructor
  · have hstep : (float_round_trip ⟨.uint32, [1, 1, 1], [[4294966295]]⟩).pix
        = [[clipScalar .float32 .uint32 ((rintQ (roundFl 23 ((roundFl 23 (roundFl 52
            ((4294966295:ℚ) / 4294967295))) * roundFl 23 ((4294967295:ℚ)))) : ℤ) : ℚ)]] :=
      rfl
    rw [hstep, h3, h6, h9, h10, h13, h14, h15]
  · norm_num

/-- float32 rounds the int32 bound 2147483647 up to exactly 2 ^ 31. -/
theorem roundFl_23_int32max : roundFl 23 (2147483647:ℚ) = 2147483648 := by
  have hpos : (0:ℚ) < 2147483647 := by norm_num
  have hE : Elog ((2147483647:ℚ)) = 30 := by
    apply Elog_eq_of_between _ _ hpos
    · norm_num
    · norm_num
  have hr : rintQ ((2147483647:ℚ) * 2 ^ (((23:ℕ):ℤ) - 30)) = 16777216 := by
    apply rintQ_eq_of_near
    rw [abs_lt]
    constructor
    · norm_num
    · norm_num
  rw [roundFl_eval 23 _ 30 16777216 hpos hE hr]
  norm_num

/-- C2 counterexample.  Clipping the float32 buffer [[2147483648]] to int32
yields -2147483648: numpy casts the bound 2147483647 into float32, where it
becomes 2 ^ 31, so np.clip leaves the value 2 ^ 31 in place, and the astype
to int32 overflows it to the sentinel -2 ^ 31 — a negative element, outside
[0, max(int32)]. -/
theorem clip_float32_to_int32_wraps_negative :
    (clip ⟨.float32, [1, 1, 1], [[2147483648]]⟩ .int32).pix = [[(-2147483648:ℚ)]] ∧
      ¬ (0 ≤ (-2147483648:ℚ) ∧ (-2147483648:ℚ) ≤ MAX_VALUES_BY_DTYPE .int32) := by
  constructor
  · have hb : clipBound .float32 .int32 = 2147483648 := by
      unfold clipBound
      rw [if_pos (show isFloat .float32 = true from rfl),
        show precOf .float32 = 23 from rfl,
        show MAX_VALUES_BY_DTYPE .int32 = (2147483647:ℚ) from rfl]
      exact roundFl_23_int32max
    have ht : truncQ (2147483648:ℚ) = (2147483648:ℤ) := by
      have h := truncQ_intCast 2147483648
      rw [show (((2147483648:ℤ)):ℚ) = (2147483648:ℚ) by norm_num] at h
      exact h
    have hcs : clipScalar .float32 .int32 (2147483648:ℚ) = (-2147483648:ℚ) := by
      unfold clipScalar
      rw [hb, show clampQ 0 2147483648 (2147483648:ℚ) = (2147483648:ℚ) from by
        unfold clampQ
        norm_num]
      show (if -2 ^ 31 ≤ truncQ (2147483648:ℚ) ∧ truncQ (2147483648:ℚ) < 2 ^ 31
        then ((truncQ (2147483648:ℚ) : ℤ) : ℚ) else ((-2 ^ 31 : ℤ) : ℚ)) = (-2147483648:ℚ)
      rw [ht, if_neg (by norm_num)]
      norm_num
    show [[clipScalar .float32 .int32 (2147483648:ℚ)]] = [[(-2147483648:ℚ)]]
    rw [hcs]
  · intro hcon
    have h := hcon.1
    norm_num at h
